import Mathlib

/-!
Shallow embedding of `src/ml/unsorted/henri/hyperparameter_searcher.py`
(class `HyperparameterSearcher`), together with proofs settling the
specification claims about it.

Modelling conventions:
* Hyperparameter values are drawn from a type `α` with decidable equality
  (Python values compared with `==`); witnesses instantiate `α := Int`.
* A Python hyperparameter generator is the tagged union `Gen`:
  a `list` becomes `cands`, a callable becomes `factory` (a zero-argument
  function that may raise, hence `Unit → Except String α`), and any other
  value becomes `fixed`.
* Python `dict`s (both the generator map and the produced configuration
  dictionaries) are insertion-ordered association lists `List (String × α)`
  (resp. `List (String × Gen α)`); real dicts have unique keys, which shows
  up as `Nodup` hypotheses where it matters.
* Exceptions are modelled with `Except PyErr`.  The module's only import is
  `warnings`, so the name `np` used by `_generate_random` is unbound: the
  ambient binding of `np` is modelled by an `Option`al choice oracle
  `np? : Option (Nat → List α → α)` together with an RNG counter (`seed`)
  threaded through every drawing call; `importedNp = none` is the binding
  the module actually establishes.  `np.random.choice` on a list resolves
  `np` first (NameError when unbound) and raises ValueError on an empty
  list.
* `warnings.warn` calls are non-fatal and carry no data used by any claim;
  they are not modelled.
-/

set_option autoImplicit false
set_option linter.unusedSectionVars false

namespace HyperparameterSearcher

universe u

/-- Structured content of the failure messages accumulated by
`_check_config` (`errors.append(...)`): the f-string payloads are abstracted
to the data they interpolate. -/
inductive ErrItem where
  /-- `f'{default_errors} are not hyperparameters'` -/
  | notHyperparameters (names : List String)
  /-- `f'{hyp_name} call error: {ex}'` -/
  | callError (name : String) (msg : String)
  deriving DecidableEq, Repr

/-- Python exceptions the module can raise, by site. -/
inductive PyErr where
  /-- `self.hyperparams[name]` with an unknown key. -/
  | keyError (k : String)
  /-- An unbound global name (the module never imports numpy, so `np`). -/
  | nameError (n : String)
  /-- Out-of-range list subscript (`interests[...]`, `result_search[...]`,
  `generator[0]` on an empty list). -/
  | indexError
  /-- `list.index(x)` with `x` absent. -/
  | valueError
  /-- `n // len(interests)` with empty `interests`. -/
  | zeroDivisionError
  /-- `assert len(errors) == 0, errors` in `_check_config`
  (the construction-time `ConfigError` of the spec). -/
  | configError (errs : List ErrItem)
  /-- `assert n_rep > 0, f'...'` in `one_value_search`
  (the call-time `ConfigError` of the spec). -/
  | nRepError (nRep n k : Nat)
  /-- `assert all([isinstance(..., list) ...])` in `one_value_grid_search`. -/
  | notListError
  /-- `assert search_i == n_unique_tuples` in `one_value_grid_search`. -/
  | countError
  /-- An exception raised by a user-supplied factory, propagating uncaught. -/
  | factoryError (msg : String)
  deriving DecidableEq, Repr

/-- Recognizer for the `assert n_rep > 0` failure. -/
def PyErr.isNRep : PyErr → Bool
  | .nRepError _ _ _ => true
  | _ => false

variable {α : Type u} [DecidableEq α]

/-- A hyperparameter generator: `list` / callable / plain value. -/
inductive Gen (α : Type u) where
  | cands (l : List α)
  | factory (f : Unit → Except String α)
  | fixed (v : α)

/-- `isinstance(generator, list)` -/
def Gen.isList : Gen α → Bool
  | .cands _ => true
  | _ => false

/-- `callable(generator)` -/
def Gen.isCallable : Gen α → Bool
  | .factory _ => true
  | _ => false

/-- A configuration dictionary (`dict` from names to chosen values). -/
abbrev Dict (α : Type u) := List (String × α)

/-- First-match association lookup, the behaviour of `d[k]` / `k in d`
on dicts with unique keys. -/
def alookup (k : String) : List (String × α) → Option α
  | [] => none
  | (k', v) :: rest => if k' = k then some v else alookup k rest

/-- `d[k] = v` on a Python dict: overwrite in place (keeping position) when
the key is present, append otherwise. -/
def dictSet (d : Dict α) (k : String) (v : α) : Dict α :=
  match d with
  | [] => [(k, v)]
  | (k', v') :: rest => if k' = k then (k, v) :: rest else (k', v') :: dictSet rest k v

/-- The searcher's state after `__init__`: `self.hyperparams` (a shallow
copy of the argument) and `self.hyp_defaults`. -/
structure Searcher (α : Type u) where
  hyperparams : List (String × Gen α)
  hyp_defaults : List (String × α)

/-- The meaning of the global name `np` inside this module: the module
imports only `warnings`, so `np` is unbound. -/
def importedNp : Option (Nat → List α → α) := none

/-- `_generate_random(generator)`: a list generator evaluates
`np.random.choice(generator)` (resolving the global `np` first), a callable
is invoked, anything else is returned as-is.  The RNG counter advances by
one per successful `np.random.choice`. -/
def generate_random (np? : Option (Nat → List α → α)) (g : Gen α) (seed : Nat) :
    Except PyErr (α × Nat) :=
  match g with
  | .cands l =>
    match np? with
    | none => .error (.nameError "np")
    | some c => if l.isEmpty then .error .valueError else .ok (c seed l, seed + 1)
  | .factory f =>
    match f () with
    | .ok v => .ok (v, seed)
    | .error m => .error (.factoryError m)
  | .fixed v => .ok (v, seed)

/-- `_choose_random(hyp_name)`: look the generator up in
`self.hyperparams`, then `_generate_random`. -/
def choose_random (np? : Option (Nat → List α → α)) (S : Searcher α) (name : String)
    (seed : Nat) : Except PyErr (α × Nat) :=
  match alookup name S.hyperparams with
  | none => .error (.keyError name)
  | some g => generate_random np? g seed

/-- `_choose_default(hyp_name)`: a `hyp_defaults` entry wins; otherwise a
list generator yields `generator[0]` (IndexError when empty), a callable is
invoked (after a warning, not modelled), and a plain value is itself. -/
def choose_default (S : Searcher α) (name : String) : Except PyErr α :=
  match alookup name S.hyp_defaults with
  | some v => .ok v
  | none =>
    match alookup name S.hyperparams with
    | none => .error (.keyError name)
    | some (.cands []) => .error .indexError
    | some (.cands (x :: _)) => .ok x
    | some (.factory f) =>
      match f () with
      | .ok v => .ok v
      | .error m => .error (.factoryError m)
    | some (.fixed v) => .ok v

/-- Iteration of `default_dict()` over `self.hyperparams.keys()`:
each name is resolved by `_choose_default` against the full searcher `S`. -/
def default_dict_aux (S : Searcher α) : List (String × Gen α) → Except PyErr (Dict α)
  | [] => .ok []
  | (name, _) :: rest => do
    let v ← choose_default S name
    let d ← default_dict_aux S rest
    .ok ((name, v) :: d)

/-- `default_dict()`: `dict((name, self._choose_default(name)) for name in
self.hyperparams.keys())`, in insertion order. -/
def default_dict (S : Searcher α) : Except PyErr (Dict α) :=
  default_dict_aux S S.hyperparams

/-- `random_dict()`: `dict((name, self._choose_random(name)) for ...)`,
threading the RNG counter through the draws in insertion order.  The
lookups of `_choose_random` are made in the full searcher `S`. -/
def random_dict_aux (np? : Option (Nat → List α → α)) (S : Searcher α) :
    List (String × Gen α) → Nat → Except PyErr (Dict α × Nat)
  | [], seed => .ok ([], seed)
  | (name, _) :: rest, seed => do
    let (v, s') ← choose_random np? S name seed
    let (d, s'') ← random_dict_aux np? S rest s'
    .ok ((name, v) :: d, s'')

/-- `random_dict()`. -/
def random_dict (np? : Option (Nat → List α → α)) (S : Searcher α) (seed : Nat) :
    Except PyErr (Dict α × Nat) :=
  random_dict_aux np? S S.hyperparams seed

/-- `default_search(n)`: `[self.default_dict() for i in range(n)]`. -/
def default_search (S : Searcher α) : Nat → Except PyErr (List (Dict α))
  | 0 => .ok []
  | n + 1 => do
    let d ← default_dict S
    let rest ← default_search S n
    .ok (d :: rest)

/-- `random_search(n)`: `[self.random_dict() for i in range(n)]`. -/
def random_search (np? : Option (Nat → List α → α)) (S : Searcher α) :
    Nat → Nat → Except PyErr (List (Dict α) × Nat)
  | 0, seed => .ok ([], seed)
  | n + 1, seed => do
    let (d, s') ← random_dict np? S seed
    let (rest, s'') ← random_search np? S n s'
    .ok (d :: rest, s'')

/-- `result_search[i][name] = v`: subscripting `result_search` raises
IndexError when `i` is out of range, otherwise dictionary `i` is updated. -/
def setDict (res : List (Dict α)) (i : Nat) (name : String) (v : α) :
    Except PyErr (List (Dict α)) :=
  match res[i]? with
  | none => .error .indexError
  | some d => .ok (res.set i (dictSet d name v))

/-- Loop body of `one_value_search`: `for i in range(n)`, with
`hyp_name = interests[i // n_rep]` (IndexError when out of range) followed
by `result_search[i][hyp_name] = self._choose_random(hyp_name)`.  The
argument is the list of remaining indices (`List.range n`). -/
def ovs_loop (np? : Option (Nat → List α → α)) (S : Searcher α) (interests : List String)
    (nRep : Nat) : List Nat → List (Dict α) → Nat → Except PyErr (List (Dict α) × Nat)
  | [], res, seed => .ok (res, seed)
  | i :: rest, res, seed =>
    match interests[i / nRep]? with
    | none => .error .indexError
    | some name => do
      let (v, s') ← choose_random np? S name seed
      let res' ← setDict res i name v
      ovs_loop np? S interests nRep rest res' s'

/-- `one_value_search(interests, n)`.  `assert isinstance(interests, list)`
always passes in the embedding (the argument is a list by type);
`n // len(interests)` raises ZeroDivisionError on an empty list; then
`assert n_rep > 0` and the override loop over `default_search(n)`. -/
def one_value_search (np? : Option (Nat → List α → α)) (S : Searcher α)
    (interests : List String) (n : Nat) (seed : Nat) :
    Except PyErr (List (Dict α) × Nat) :=
  if interests.length = 0 then .error .zeroDivisionError
  else
    let nRep := n / interests.length
    if nRep = 0 then .error (.nRepError nRep n interests.length)
    else do
      let res ← default_search S n
      ovs_loop np? S interests nRep (List.range n) res seed

/-- The length `len(self.hyperparams[interest])` takes in
`one_value_grid_search` (only evaluated after every interest passed the
`isinstance(..., list)` assertion, so only the `cands` case is reachable). -/
def Gen.listLen : Gen α → Nat
  | .cands l => l.length
  | _ => 0

/-- The list payload `list(self.hyperparams[hyp_name])` copies (again only
reachable for `cands` generators). -/
def Gen.listVal : Gen α → List α
  | .cands l => l
  | _ => []

/-- `list.index(x)`: the index of the first occurrence of `x`, `none`
(ValueError at the call site) when absent. -/
def pyIndex (x : α) : List α → Option Nat
  | [] => none
  | y :: rest => if y = x then some 0 else (pyIndex x rest).map (· + 1)

/-- The candidate-list payload of interest `h` (junk `[]` when `h` is not
a list-valued hyperparameter; only used under that hypothesis). -/
def cands_of (S : Searcher α) (h : String) : List α :=
  match alookup h S.hyperparams with
  | some (.cands l) => l
  | _ => []

/-- The list `non_default_hyperparams[hyp_name]` computed by
`one_value_grid_search` for a well-formed interest: the candidate list with
the first occurrence of the resolved default popped (junk `[]` in the
error branches, which are never reached under the theorems' hypotheses). -/
def non_default_list (S : Searcher α) (h : String) : List α :=
  match choose_default S h with
  | .ok dv =>
    match pyIndex dv (cands_of S h) with
    | some i => (cands_of S h).eraseIdx i
    | none => []
  | .error _ => []

/-- The `non_default_hyperparams` construction loop of
`one_value_grid_search`: for each interest, copy its candidate list, find
the first occurrence of its resolved default (`list.index`, ValueError when
absent) and `pop` it. -/
def nd_loop (S : Searcher α) : List String → Except PyErr (List (String × List α))
  | [] => .ok []
  | h :: rest =>
    match alookup h S.hyperparams with
    | none => .error (.keyError h)
    | some g => do
      let l := g.listVal
      let d ← choose_default S h
      match pyIndex d l with
      | none => .error .valueError
      | some i => do
        let rest' ← nd_loop S rest
        .ok ((h, l.eraseIdx i) :: rest')

/-- Inner fill loop of `one_value_grid_search`:
`for value in non_default_hyperparams[hyp_name]:
result_search[search_i][hyp_name] = value; search_i += 1`. -/
def fill_inner (name : String) : List α → List (Dict α) → Nat →
    Except PyErr (List (Dict α) × Nat)
  | [], res, i => .ok (res, i)
  | v :: vs, res, i => do
    let res' ← setDict res i name v
    fill_inner name vs res' (i + 1)

/-- Outer fill loop of `one_value_grid_search`: `for hyp_name in interests`,
looking the popped list up in `non_default_hyperparams`. -/
def fill_loop (nd : List (String × List α)) : List String → List (Dict α) → Nat →
    Except PyErr (List (Dict α) × Nat)
  | [], res, i => .ok (res, i)
  | h :: rest, res, i =>
    match alookup h nd with
    | none => .error (.keyError h)
    | some vs => do
      let (res', i') ← fill_inner h vs res i
      fill_loop nd rest res' i'

/-- `one_value_grid_search(interests)`.  The `all([isinstance(...)])`
comprehension evaluates every lookup first (KeyError has priority over the
assertion); `n_unique_tuples = sum(len(...)) + 1 - len(interests)` is
computed in `Nat` (at its use sites every interest's list contains its
default, hence is non-empty, so the truncating subtraction agrees with
Python's int arithmetic); `search_i` starts at 1 and the final
`assert search_i == n_unique_tuples` is checked. -/
def one_value_grid_search (S : Searcher α) (interests : List String) :
    Except PyErr (List (Dict α)) := do
  let gens ← interests.mapM (fun h =>
    match alookup h S.hyperparams with
    | none => Except.error (PyErr.keyError h)
    | some g => Except.ok g)
  if gens.all Gen.isList then do
    let nUnique := (gens.map Gen.listLen).sum + 1 - interests.length
    let nd ← nd_loop S interests
    let res ← default_search S nUnique
    let (res', i') ← fill_loop nd interests res 1
    if i' = nUnique then .ok res' else .error .countError
  else .error .notListError

/-- Inner loop of `custom_search`: `for hyp_name, hyp_gen in
overwritten_hyp.items(): result_search[i][hyp_name] =
self._generate_random(hyp_gen)` (the static `_generate_random`, no lookup
in `self.hyperparams`). -/
def cs_inner (np? : Option (Nat → List α → α)) : List (String × Gen α) →
    List (Dict α) → Nat → Nat → Except PyErr (List (Dict α) × Nat)
  | [], res, _, seed => .ok (res, seed)
  | (name, g) :: rest, res, i, seed => do
    let (v, s') ← generate_random np? g seed
    let res' ← setDict res i name v
    cs_inner np? rest res' i s'

/-- Outer loop of `custom_search`: `for i in range(n)`. -/
def cs_loop (np? : Option (Nat → List α → α)) (ovr : List (String × Gen α)) :
    List Nat → List (Dict α) → Nat → Except PyErr (List (Dict α) × Nat)
  | [], res, seed => .ok (res, seed)
  | i :: rest, res, seed => do
    let (res', s') ← cs_inner np? ovr res i seed
    cs_loop np? ovr rest res' s'

/-- `custom_search(overwritten_hyp, n)`. -/
def custom_search (np? : Option (Nat → List α → α)) (S : Searcher α)
    (ovr : List (String × Gen α)) (n : Nat) (seed : Nat) :
    Except PyErr (List (Dict α) × Nat) := do
  let res ← default_search S n
  cs_loop np? ovr (List.range n) res seed

/-- `set(self.hyp_defaults.keys()) - all_hyp`: the default-override keys
that are not hyperparameters (in `hyp_defaults` order; Python's set
iteration order is unspecified and no claim depends on it). -/
def unknown_defaults (S : Searcher α) : List String :=
  (S.hyp_defaults.map Prod.fst).filter (fun k => (alookup k S.hyperparams).isNone)

/-- The `'{hyp_name} call error: {ex}'` items collected by probing every
callable generator with zero arguments (in generator-map order; Python
iterates the `callable_hyp` set in unspecified order and no claim depends
on it). -/
def factory_errors (S : Searcher α) : List ErrItem :=
  S.hyperparams.filterMap (fun p =>
    match p.2 with
    | .factory f =>
      match f () with
      | .error m => some (.callError p.1 m)
      | .ok _ => none
    | _ => none)

/-- The full `errors` list accumulated by `_check_config`: one
`'... are not hyperparameters'` item when some default key is unknown,
then one item per raising factory. -/
def config_errors (S : Searcher α) : List ErrItem :=
  (if (unknown_defaults S).isEmpty then []
    else [.notHyperparameters (unknown_defaults S)]) ++ factory_errors S

/-- `_check_config()`: `assert len(errors) == 0, errors`.  (The
`'... have no default values'` warning is non-fatal and not modelled.) -/
def check_config (S : Searcher α) : Except PyErr Unit :=
  if (config_errors S).isEmpty then .ok () else .error (.configError (config_errors S))

/-- Whether `_generate_random` can run a generator without raising, given
the ambient binding of `np`: a list needs `np` bound and must be non-empty,
a callable must not raise, a plain value always succeeds. -/
def drawOK (np? : Option (Nat → List α → α)) : Gen α → Bool
  | .cands l => np?.isSome && !l.isEmpty
  | .factory f => (f ()).isOk
  | .fixed _ => true

/-!
### Reference-level embedding (Python object aliasing)

Python candidate lists are mutable objects; `__init__` copies the
hyperparameter dict only shallowly, so the stored generators alias the
caller's list objects.  To state the frame claim we re-embed the module
with candidate lists living on an explicit heap: a generator holds a
reference (`GenR.candsR r`) into `Heap α`, and the only two operations the
module ever performs that touch list objects at all are the copying
allocation `list(self.hyperparams[hyp_name])` and the `pop` on that fresh
copy, both in `one_value_grid_search`.  Every other statement of every
method only reads list objects (subscripting, `len`, iteration,
`np.random.choice`) and stores plain values — never list references — into
the freshly created result dictionaries, so those methods are embedded as
the pure functions above applied to the dereferenced searcher, with the
heap passed through unchanged, which is exactly what the source does.  No
method assigns to `self.hyperparams` or `self.hyp_defaults`.
-/

/-- The mutable store of Python list objects: cell `r` holds the current
contents of list object `r`. -/
abbrev Heap (α : Type u) := List (List α)

/-- A generator as stored by the searcher: a list generator is a reference
to a heap cell. -/
inductive GenR (α : Type u) where
  | candsR (r : Nat)
  | factoryR (f : Unit → Except String α)
  | fixedR (v : α)

/-- `isinstance(generator, list)` at the reference level. -/
def GenR.isList : GenR α → Bool
  | .candsR _ => true
  | _ => false

/-- Read a generator's current value out of the heap. -/
def derefGen (heap : Heap α) : GenR α → Gen α
  | .candsR r => .cands (heap.getD r [])
  | .factoryR f => .factory f
  | .fixedR v => .fixed v

/-- The searcher state at the reference level. -/
structure SearcherR (α : Type u) where
  hyperparams : List (String × GenR α)
  hyp_defaults : List (String × α)

/-- The pure view of a reference-level searcher under a heap. -/
def derefSearcher (heap : Heap α) (S : SearcherR α) : Searcher α :=
  ⟨S.hyperparams.map (fun p => (p.1, derefGen heap p.2)), S.hyp_defaults⟩

/-- Reference-level `non_default_hyperparams` loop of
`one_value_grid_search`: `list(self.hyperparams[hyp_name])` allocates a
fresh cell holding a copy, `.index(self._choose_default(hyp_name))` reads,
and `.pop(...)` mutates the fresh cell in place.  Returns the references to
the popped copies; the heap is returned even on an exception (the
mutations done so far persist). -/
def nd_loop_R (S : SearcherR α) : List String → Heap α →
    Except PyErr (List (String × Nat)) × Heap α
  | [], heap => (.ok [], heap)
  | h :: rest, heap =>
    match alookup h S.hyperparams with
    | none => (.error (.keyError h), heap)
    | some g =>
      let copy := (derefGen heap g).listVal
      let r' := heap.length
      let heap' := heap ++ [copy]
      match choose_default (derefSearcher heap' S) h with
      | .error e => (.error e, heap')
      | .ok d =>
        match pyIndex d copy with
        | none => (.error .valueError, heap')
        | some i =>
          let heap'' := heap'.set r' (copy.eraseIdx i)
          match nd_loop_R S rest heap'' with
          | (.error e, heapN) => (.error e, heapN)
          | (.ok nd, heapN) => (.ok ((h, r') :: nd), heapN)

/-- Reference-level `one_value_grid_search`. -/
def one_value_grid_search_R (S : SearcherR α) (interests : List String)
    (heap : Heap α) : Except PyErr (List (Dict α)) × Heap α :=
  match interests.mapM (fun h =>
    match alookup h S.hyperparams with
    | none => Except.error (PyErr.keyError h)
    | some g => Except.ok g) with
  | .error e => (.error e, heap)
  | .ok gens =>
    if gens.all GenR.isList then
      let nUnique := (gens.map (fun g => (derefGen heap g).listLen)).sum + 1
        - interests.length
      match nd_loop_R S interests heap with
      | (.error e, heap') => (.error e, heap')
      | (.ok nd, heap') =>
        match default_search (derefSearcher heap' S) nUnique with
        | .error e => (.error e, heap')
        | .ok res =>
          match fill_loop (nd.map (fun p => (p.1, heap'.getD p.2 []))) interests res 1 with
          | .error e => (.error e, heap')
          | .ok (res', i') =>
            if i' = nUnique then (.ok res', heap') else (.error .countError, heap')
    else (.error .notListError, heap)

/-- One public sampling call, with its arguments. -/
inductive Call (α : Type u) where
  | defaultDictC
  | randomDictC
  | defaultSearchC (n : Nat)
  | randomSearchC (n : Nat)
  | oneValueSearchC (interests : List String) (n : Nat)
  | oneValueGridSearchC (interests : List String)
  | customSearchC (ovr : List (String × Gen α)) (n : Nat)

/-- Execute one sampling call at the reference level, returning the heap
(and RNG counter) it leaves behind.  All methods except
`one_value_grid_search` contain no statement that writes to a list object
or to `self`, so they are the pure embeddings over the dereferenced
searcher and leave the heap as they found it; `one_value_grid_search` runs
its reference-level embedding. -/
def execCall (np? : Option (Nat → List α → α)) (S : SearcherR α) :
    Call α → Heap α × Nat → Heap α × Nat
  | .defaultDictC, (heap, seed) => (heap, seed)
  | .randomDictC, (heap, seed) =>
    match random_dict np? (derefSearcher heap S) seed with
    | .ok (_, s') => (heap, s')
    | .error _ => (heap, seed)
  | .defaultSearchC _, (heap, seed) => (heap, seed)
  | .randomSearchC n, (heap, seed) =>
    match random_search np? (derefSearcher heap S) n seed with
    | .ok (_, s') => (heap, s')
    | .error _ => (heap, seed)
  | .oneValueSearchC interests n, (heap, seed) =>
    match one_value_search np? (derefSearcher heap S) interests n seed with
    | .ok (_, s') => (heap, s')
    | .error _ => (heap, seed)
  | .oneValueGridSearchC interests, (heap, seed) =>
    ((one_value_grid_search_R S interests heap).2, seed)
  | .customSearchC ovr n, (heap, seed) =>
    match custom_search np? (derefSearcher heap S) ovr n seed with
    | .ok (_, s') => (heap, s')
    | .error _ => (heap, seed)

/-- Execute a sequence of sampling calls. -/
def runCalls (np? : Option (Nat → List α → α)) (S : SearcherR α) :
    List (Call α) → Heap α × Nat → Heap α × Nat
  | [], st => st
  | c :: rest, st => runCalls np? S rest (execCall np? S c st)

/-!
### Concrete instances used by counterexamples and witnesses
-/

/-- The deterministic stand-in for a bound `np.random.choice` used on
concrete inputs: pick index `seed mod length`. -/
def chMod (seed : Nat) (l : List Int) : Int := l.getD (seed % l.length) 0

/-- A searcher with a single candidate-list hyperparameter,
`HyperparameterSearcher({'a': [1, 2]})`. -/
def sC1 : Searcher Int := ⟨[("a", .cands [1, 2])], []⟩

/-- `HyperparameterSearcher({'a': [1, 2, 3], 'b': [10, 20]})`, the
spec's grid-search example. -/
def sAB : Searcher Int := ⟨[("a", .cands [1, 2, 3]), ("b", .cands [10, 20])], []⟩

/-- `HyperparameterSearcher({'x': [1, 2]}, hyp_defaults={'y': 5})` with a
raising factory `f`: used to exercise construction-time validation. -/
def sBad : Searcher Int :=
  ⟨[("x", .cands [1, 2]), ("f", .factory (fun _ => .error "boom"))], [("y", 5)]⟩

/-- `HyperparameterSearcher({'a': [1, 2], 'b': 7})`: hyperparameter `b` is
not list-valued. -/
def sMix : Searcher Int := ⟨[("a", .cands [1, 2]), ("b", .fixed 7)], []⟩

/-- The pointwise generator of a named hyperparameter (junk `Candidates([])`
when absent; only used where presence is known). -/
def gen_of {β : Type u} [DecidableEq β] (S : Searcher β) (h : String) : Gen β :=
  (alookup h S.hyperparams).getD (Gen.cands [])

/-- A reference-level searcher whose candidate list lives in heap cell 0. -/
def sRef : SearcherR Int := ⟨[("a", .candsR 0), ("c", .fixedR 7)], []⟩

/-- The heap holding `sRef`'s candidate list object. -/
def heap0 : Heap Int := [[1, 2, 3]]

end HyperparameterSearcher

namespace HyperparameterSearcher

/-!
## Basic lemmas
-/

universe v

variable {α : Type v} [DecidableEq α]

@[simp]
theorem exceptOkBind {β γ : Type v} (v : β) (f : β → Except PyErr γ) :
    (Except.ok v >>= f) = f v := rfl

@[simp]
theorem exceptErrorBind {β γ : Type v} (e : PyErr) (f : β → Except PyErr γ) :
    ((Except.error e : Except PyErr β) >>= f) = .error e := rfl

@[simp]
theorem exceptPureEq {β : Type v} (v : β) :
    (pure v : Except PyErr β) = .ok v := rfl

theorem alookup_dictSet_self (d : Dict α) (k : String) (v : α) :
    alookup k (dictSet d k v) = some v := by
  induction d with
  | nil => simp [dictSet, alookup]
  | cons p rest ih =>
    obtain ⟨k', v'⟩ := p
    by_cases h : k' = k
    · subst h; simp [dictSet, alookup]
    · simp [dictSet, h, alookup, ih]

theorem alookup_dictSet_ne (d : Dict α) {k k' : String} (v : α) (h : k' ≠ k) :
    alookup k' (dictSet d k v) = alookup k' d := by
  have h' : k ≠ k' := Ne.symm h
  induction d with
  | nil => simp [dictSet, alookup, h']
  | cons p rest ih =>
    obtain ⟨k₀, v₀⟩ := p
    by_cases h₀ : k₀ = k
    · subst h₀
      simp [dictSet, alookup, h']
    · simp [dictSet, h₀, alookup, ih]

/-- `default_dict` is deterministic, so `default_search(n)` is `n` copies
of its result. -/
theorem default_search_ok {S : Searcher α} {d : Dict α}
    (hd : default_dict S = .ok d) (n : Nat) :
    default_search S n = .ok (List.replicate n d) := by
  induction n with
  | zero => rfl
  | succ m ih => simp [default_search, hd, ih, List.replicate_succ]

/-- Every name present in the generator map resolves by `_choose_default`
to the value `default_dict` records for it. -/
theorem default_dict_aux_lookup {S : Searcher α} {l : List (String × Gen α)}
    {d : Dict α} (hd : default_dict_aux S l = .ok d) (name : String)
    (hmem : (alookup name l).isSome) :
    ∃ dv, choose_default S name = .ok dv ∧ alookup name d = some dv := by
  induction l generalizing d with
  | nil => simp [alookup] at hmem
  | cons p rest ih =>
    obtain ⟨n₀, g₀⟩ := p
    simp only [default_dict_aux] at hd
    cases hv : choose_default S n₀ with
    | error e => rw [hv] at hd; simp at hd
    | ok v =>
      rw [hv] at hd
      cases hrest : default_dict_aux S rest with
      | error e => rw [hrest] at hd; simp at hd
      | ok drest =>
        rw [hrest] at hd
        simp only [exceptOkBind, exceptPureEq, Except.ok.injEq] at hd
        by_cases hn : n₀ = name
        · subst hn
          exact ⟨v, hv, by rw [← hd]; simp [alookup]⟩
        · simp only [alookup, hn, if_false] at hmem
          obtain ⟨dv, h₁, h₂⟩ := ih hrest hmem
          exact ⟨dv, h₁, by rw [← hd]; simpa [alookup, hn] using h₂⟩

/-- `default_dict` version of the previous lemma. -/
theorem default_dict_lookup {S : Searcher α} {d : Dict α}
    (hd : default_dict S = .ok d) (name : String)
    (hmem : (alookup name S.hyperparams).isSome) :
    ∃ dv, choose_default S name = .ok dv ∧ alookup name d = some dv :=
  default_dict_aux_lookup hd name hmem

/-!
### Which sites can raise the `n_rep` assertion

The `assert n_rep > 0` failure (`PyErr.nRepError`) can arise only from the
guard at the top of `one_value_search`: no helper can produce it.
-/

theorem choose_default_not_nrep {S : Searcher α} {name : String} {e : PyErr}
    (h : choose_default S name = .error e) : e.isNRep = false := by
  unfold choose_default at h
  split at h
  all_goals try split at h
  all_goals try split at h
  all_goals first
    | exact Except.noConfusion h
    | (injection h with h; subst h; rfl)

theorem generate_random_not_nrep {np? : Option (Nat → List α → α)} {g : Gen α}
    {seed : Nat} {e : PyErr} (h : generate_random np? g seed = .error e) :
    e.isNRep = false := by
  unfold generate_random at h
  split at h
  all_goals try split at h
  all_goals try split at h
  all_goals first
    | exact Except.noConfusion h
    | (injection h with h; subst h; rfl)

theorem choose_random_not_nrep {np? : Option (Nat → List α → α)} {S : Searcher α}
    {name : String} {seed : Nat} {e : PyErr}
    (h : choose_random np? S name seed = .error e) : e.isNRep = false := by
  unfold choose_random at h
  split at h
  · injection h with h; subst h; rfl
  · exact generate_random_not_nrep h

theorem default_dict_aux_not_nrep {S : Searcher α} {l : List (String × Gen α)}
    {e : PyErr} (h : default_dict_aux S l = .error e) : e.isNRep = false := by
  induction l with
  | nil => simp [default_dict_aux] at h
  | cons p rest ih =>
    obtain ⟨n₀, g₀⟩ := p
    simp only [default_dict_aux] at h
    cases hv : choose_default S n₀ with
    | error e₀ =>
      rw [hv] at h; simp at h; subst h
      exact choose_default_not_nrep hv
    | ok v =>
      rw [hv] at h
      cases hrest : default_dict_aux S rest with
      | error e₀ =>
        rw [hrest] at h; simp at h; subst h
        exact ih hrest
      | ok drest => rw [hrest] at h; simp at h

theorem default_search_not_nrep {S : Searcher α} {n : Nat} {e : PyErr}
    (h : default_search S n = .error e) : e.isNRep = false := by
  induction n with
  | zero => simp [default_search] at h
  | succ m ih =>
    simp only [default_search] at h
    cases hv : default_dict S with
    | error e₀ =>
      rw [hv] at h; simp at h; subst h
      exact default_dict_aux_not_nrep hv
    | ok d =>
      rw [hv] at h
      cases hrest : default_search S m with
      | error e₀ =>
        rw [hrest] at h; simp at h; subst h
        exact ih hrest
      | ok l => rw [hrest] at h; simp at h

theorem setDict_not_nrep {res : List (Dict α)} {i : Nat} {name : String} {v : α}
    {e : PyErr} (h : setDict res i name v = .error e) : e.isNRep = false := by
  unfold setDict at h
  split at h
  · injection h with h; subst h; rfl
  · simp at h

theorem ovs_loop_not_nrep {np? : Option (Nat → List α → α)} {S : Searcher α}
    {interests : List String} {nRep : Nat} {is : List Nat} {res : List (Dict α)}
    {seed : Nat} {e : PyErr}
    (h : ovs_loop np? S interests nRep is res seed = .error e) : e.isNRep = false := by
  induction is generalizing res seed with
  | nil => simp [ovs_loop] at h
  | cons i rest ih =>
    simp only [ovs_loop] at h
    split at h
    · injection h with h; subst h; rfl
    · rename_i name hidx
      cases hv : choose_random np? S name seed with
      | error e₀ =>
        rw [hv] at h; simp at h; subst h
        exact choose_random_not_nrep hv
      | ok p =>
        rw [hv] at h
        obtain ⟨v, s'⟩ := p
        simp only [exceptOkBind] at h
        cases hs : setDict res i name v with
        | error e₀ =>
          rw [hs] at h; simp at h; subst h
          exact setDict_not_nrep hs
        | ok res' =>
          rw [hs] at h
          simp only [exceptOkBind] at h
          exact ih h

end HyperparameterSearcher

namespace HyperparameterSearcher

universe w

variable {α : Type w} [DecidableEq α]

/-!
## Claim theorems (first group)
-/

/-- C9: for the empty interests list, `one_value_search([], n)` raises
ZeroDivisionError from `n // len(interests)` for every `n` — not a
ConfigError (`nRepError`) and not any other assertion — so the non-empty
precondition is enforced only by this accidental division failure. -/
theorem claim_C9_empty_interests_zero_division
    (np? : Option (Nat → List α → α)) (S : Searcher α) (n seed : Nat) :
    one_value_search np? S [] n seed = .error .zeroDivisionError := rfl

/-- C1 (code bug): the module calls `np.random.choice` but never imports
numpy (`importedNp = none`), so random resolution of a candidate-list
generator raises NameError instead of returning a uniformly-random
element: construction of `HyperparameterSearcher({'a': [1, 2]})` succeeds,
yet `random_dict()` — and `_generate_random` on the list itself — fails. -/
theorem claim_C1_random_choice_name_error :
    check_config sC1 = .ok () ∧
      random_dict importedNp sC1 0 = .error (.nameError "np") ∧
      generate_random importedNp (Gen.cands [(1 : Int), 2]) 0 =
        .error (.nameError "np") := by
  refine ⟨rfl, rfl, rfl⟩

/-- C2 (counterexample): with `interests = ['a', 'b']` and `n = 3` we have
`n_rep = 1`, and dictionary index `i = 2` computes `interests[2 // 1] =
interests[2]`, which raises IndexError — the trailing `n - k*nRep`
dictionaries do not succeed, contradicting the claim that the last
interest group absorbs the remainder. -/
theorem claim_C2_counterexample :
    one_value_search (some chMod) sAB ["a", "b"] 3 0 = .error .indexError := by
  rfl

/-- C6: with non-empty interests, `one_value_search` fails with the
`assert n_rep > 0` ConfigError exactly when `floor(n / k) = 0`
(equivalently `n < k`), and in that case the call returns no dictionaries
(the guard fires before any are built). -/
theorem claim_C6_n_rep_config_error_iff
    (np? : Option (Nat → List α → α)) (S : Searcher α) (interests : List String)
    (n seed : Nat) (hne : interests ≠ []) :
    ((∃ r m k, one_value_search np? S interests n seed = .error (.nRepError r m k)) ↔
      n / interests.length = 0) ∧
    (n / interests.length = 0 →
      one_value_search np? S interests n seed =
        .error (.nRepError (n / interests.length) n interests.length)) := by
  have hlen : ¬ interests.length = 0 := by
    intro h0
    exact hne (List.length_eq_zero.mp h0)
  constructor
  · constructor
    · rintro ⟨r, m, k, hres⟩
      by_contra hz
      simp only [one_value_search, if_neg hlen, if_neg hz] at hres
      cases hds : default_search S n with
      | error e =>
        rw [hds] at hres
        simp only [exceptErrorBind, Except.error.injEq] at hres
        subst hres
        exact absurd (default_search_not_nrep hds) (by simp [PyErr.isNRep])
      | ok res =>
        rw [hds] at hres
        simp only [exceptOkBind] at hres
        exact absurd (ovs_loop_not_nrep hres) (by simp [PyErr.isNRep])
    · intro hz
      exact ⟨n / interests.length, n, interests.length, by
        simp only [one_value_search, if_neg hlen, if_pos hz]⟩
  · intro hz
    simp only [one_value_search, if_neg hlen, if_pos hz]

end HyperparameterSearcher

namespace HyperparameterSearcher

universe w2

variable {α : Type w2} [DecidableEq α]

/-- Witness for C6 at `interests = ['a','b']`, `n = 1`: `n // k == 0`, and
the call fails with the `n_rep` ConfigError. -/
theorem claim_C6_witness :
    one_value_search (some chMod) sAB ["a", "b"] 1 0 =
      .error (.nRepError 0 1 2) := by
  have h := (claim_C6_n_rep_config_error_iff (some chMod) sAB ["a", "b"] 1 0
    (by decide)).2 (by decide)
  simpa using h

/-- The unknown-default-keys list is non-empty exactly when some default
key is missing from the generator map. -/
theorem unknown_defaults_ne_nil {S : Searcher α} :
    unknown_defaults S ≠ [] ↔
      ∃ k, k ∈ S.hyp_defaults.map Prod.fst ∧ alookup k S.hyperparams = none := by
  unfold unknown_defaults
  rw [Ne, List.filter_eq_nil]
  push_neg
  simp [Option.isNone_iff_eq_none]

/-- The probe-error list is non-empty exactly when some factory raises. -/
theorem factory_errors_ne_nil {S : Searcher α} :
    factory_errors S ≠ [] ↔
      ∃ p ∈ S.hyperparams, ∃ f m, p.2 = Gen.factory f ∧ f () = .error m := by
  unfold factory_errors
  rw [Ne, List.filterMap_eq_nil]
  push_neg
  constructor
  · rintro ⟨p, hp, hne⟩
    refine ⟨p, hp, ?_⟩
    cases hg : p.2 with
    | factory f =>
      cases hf : f () with
      | error m => exact ⟨f, m, rfl, hf⟩
      | ok v => rw [hg] at hne; simp [hf] at hne
    | cands l => rw [hg] at hne; simp at hne
    | fixed v => rw [hg] at hne; simp at hne
  · rintro ⟨p, hp, f, m, hg, hf⟩
    refine ⟨p, hp, ?_⟩
    rw [hg]
    simp only [hf]
    simp

/-- C5: construction-time validation fails exactly when some `hyp_defaults`
key is not a hyperparameter or some callable generator raises when probed
with zero arguments; the `ConfigError` carries the full accumulated list:
one `'... are not hyperparameters'` item naming every unknown default key,
and one `'... call error: ...'` item for every raising factory. -/
theorem claim_C5_check_config_accumulates (S : Searcher α) :
    ((∃ e, check_config S = .error e) ↔
      ((∃ k, k ∈ S.hyp_defaults.map Prod.fst ∧ alookup k S.hyperparams = none) ∨
        (∃ p ∈ S.hyperparams, ∃ f m, p.2 = Gen.factory f ∧ f () = .error m))) ∧
    (∀ e, check_config S = .error e →
      ∃ errs, e = .configError errs ∧
        (∀ k, k ∈ S.hyp_defaults.map Prod.fst → alookup k S.hyperparams = none →
          ∃ names, ErrItem.notHyperparameters names ∈ errs ∧ k ∈ names) ∧
        (∀ p ∈ S.hyperparams, ∀ f m, p.2 = Gen.factory f → f () = .error m →
          ErrItem.callError p.1 m ∈ errs)) := by
  have hsplit : config_errors S ≠ [] ↔
      unknown_defaults S ≠ [] ∨ factory_errors S ≠ [] := by
    unfold config_errors
    by_cases hu : (unknown_defaults S).isEmpty
    · rw [if_pos hu]
      rw [List.isEmpty_iff] at hu
      simp [hu]
    · rw [if_neg hu]
      rw [List.isEmpty_iff] at hu
      simp [hu]
  constructor
  · constructor
    · rintro ⟨e, he⟩
      unfold check_config at he
      split at he
      · exact absurd he (by simp)
      · rename_i hne
        rw [List.isEmpty_iff] at hne
        rcases hsplit.mp hne with h | h
        · exact Or.inl (unknown_defaults_ne_nil.mp h)
        · exact Or.inr (factory_errors_ne_nil.mp h)
    · intro hcond
      have hne : config_errors S ≠ [] := by
        rcases hcond with h | h
        · exact hsplit.mpr (Or.inl (unknown_defaults_ne_nil.mpr h))
        · exact hsplit.mpr (Or.inr (factory_errors_ne_nil.mpr h))
      refine ⟨.configError (config_errors S), ?_⟩
      unfold check_config
      rw [if_neg (by rw [List.isEmpty_iff]; exact hne)]
  · intro e he
    unfold check_config at he
    split at he
    · exact absurd he (by simp)
    · refine ⟨config_errors S, by injection he with h; exact h.symm, ?_, ?_⟩
      · intro k hk hnone
        have hkmem : k ∈ unknown_defaults S := by
          unfold unknown_defaults
          rw [List.mem_filter]
          exact ⟨hk, by simp [hnone]⟩
        have hune : ¬ (unknown_defaults S).isEmpty = true := by
          rw [List.isEmpty_iff]
          intro h0
          rw [h0] at hkmem
          simp at hkmem
        refine ⟨unknown_defaults S, ?_, hkmem⟩
        unfold config_errors
        rw [if_neg hune]
        simp
      · intro p hp f m hg hf
        unfold config_errors
        refine List.mem_append_right _ ?_
        unfold factory_errors
        refine List.mem_filterMap.mpr ⟨p, hp, ?_⟩
        rw [hg]
        simp only [hf]

end HyperparameterSearcher

namespace HyperparameterSearcher

universe w3

variable {α : Type w3} [DecidableEq α]

/-!
## Success of random draws, `random_search` / `default_search` (C7) and
`custom_search` (C8)
-/

omit [DecidableEq α] in
theorem alookup_mem {k : String} {v : α} {l : List (String × α)}
    (h : alookup k l = some v) : (k, v) ∈ l := by
  induction l with
  | nil => simp [alookup] at h
  | cons p rest ih =>
    obtain ⟨k₀, v₀⟩ := p
    by_cases hk : k₀ = k
    · subst hk
      simp [alookup] at h
      subst h
      exact List.mem_cons_self _ _
    · simp only [alookup, if_neg hk] at h
      exact List.mem_cons_of_mem _ (ih h)

omit [DecidableEq α] in
theorem mem_alookup_isSome {k : String} {v : α} {l : List (String × α)}
    (h : (k, v) ∈ l) : (alookup k l).isSome := by
  induction l with
  | nil => simp at h
  | cons p rest ih =>
    obtain ⟨k₀, v₀⟩ := p
    by_cases hk : k₀ = k
    · subst hk; simp [alookup]
    · rcases List.mem_cons.mp h with heq | hmem
      · injection heq with h1 h2; exact absurd h1.symm hk
      · simp only [alookup, if_neg hk]
        exact ih hmem

theorem generate_random_ok {np? : Option (Nat → List α → α)} {g : Gen α}
    (hok : drawOK np? g = true) (s : Nat) :
    ∃ v s', generate_random np? g s = .ok (v, s') := by
  cases g with
  | cands l =>
    simp only [drawOK, Bool.and_eq_true, Bool.not_eq_eq_eq_not, Bool.not_true] at hok
    obtain ⟨hnp, hemp⟩ := hok
    obtain ⟨c, hc⟩ := Option.isSome_iff_exists.mp hnp
    exact ⟨c s l, s + 1, by simp [generate_random, hc, hemp]⟩
  | factory f =>
    simp only [drawOK] at hok
    cases hf : f () with
    | ok v => exact ⟨v, s, by simp [generate_random, hf]⟩
    | error m => rw [hf] at hok; simp [Except.isOk, Except.toBool] at hok
  | fixed v => exact ⟨v, s, rfl⟩

theorem choose_random_ok {np? : Option (Nat → List α → α)} {S : Searcher α}
    {name : String}
    (hdraw : ∀ p ∈ S.hyperparams, drawOK np? p.2 = true)
    (hin : (alookup name S.hyperparams).isSome) (s : Nat) :
    ∃ v s', choose_random np? S name s = .ok (v, s') := by
  obtain ⟨g, hg⟩ := Option.isSome_iff_exists.mp hin
  have hmem : (name, g) ∈ S.hyperparams := alookup_mem hg
  obtain ⟨v, s', hv⟩ := generate_random_ok (hdraw (name, g) hmem) s
  exact ⟨v, s', by simp [choose_random, hg, hv]⟩

theorem random_dict_aux_ok {np? : Option (Nat → List α → α)} {S : Searcher α}
    {l : List (String × Gen α)}
    (hdraw : ∀ p ∈ S.hyperparams, drawOK np? p.2 = true)
    (hsub : ∀ p ∈ l, (alookup p.1 S.hyperparams).isSome) (s : Nat) :
    ∃ dd s', random_dict_aux np? S l s = .ok (dd, s') := by
  induction l generalizing s with
  | nil => exact ⟨[], s, rfl⟩
  | cons p rest ih =>
    obtain ⟨name, g⟩ := p
    obtain ⟨v, s₁, hv⟩ := choose_random_ok hdraw (hsub (name, g) (List.mem_cons_self _ _)) s
    obtain ⟨dd, s₂, hdd⟩ := ih (fun q hq => hsub q (List.mem_cons_of_mem _ hq)) s₁
    exact ⟨(name, v) :: dd, s₂, by simp [random_dict_aux, hv, hdd]⟩

theorem random_dict_ok {np? : Option (Nat → List α → α)} {S : Searcher α}
    (hdraw : ∀ p ∈ S.hyperparams, drawOK np? p.2 = true) (s : Nat) :
    ∃ dd s', random_dict np? S s = .ok (dd, s') :=
  random_dict_aux_ok hdraw
    (fun p hp => by
      obtain ⟨k, v⟩ := p
      exact mem_alookup_isSome hp) s

/-- C7: `default_search(n)` returns exactly `n` dictionaries, each the
result of a call to `default_dict()` (which is deterministic, so they are
`n` copies), and `random_search(n)` returns exactly `n` dictionaries, each
the result of an independent call to `random_dict()` (at some RNG state). -/
theorem claim_C7_search_lengths (np? : Option (Nat → List α → α)) (S : Searcher α)
    (n seed : Nat) (d : Dict α) (hd : default_dict S = .ok d)
    (hdraw : ∀ p ∈ S.hyperparams, drawOK np? p.2 = true) :
    default_search S n = .ok (List.replicate n d) ∧
      ∃ l s', random_search np? S n seed = .ok (l, s') ∧ l.length = n ∧
        ∀ i, i < n → ∃ s₁ s₂ di, l[i]? = some di ∧
          random_dict np? S s₁ = .ok (di, s₂) := by
  refine ⟨default_search_ok hd n, ?_⟩
  induction n generalizing seed with
  | zero => exact ⟨[], seed, rfl, rfl, by omega⟩
  | succ m ih =>
    obtain ⟨d₀, s₀, h₀⟩ := random_dict_ok hdraw seed
    obtain ⟨l, s', hl, hlen, hidx⟩ := ih s₀
    refine ⟨d₀ :: l, s', by simp [random_search, h₀, hl], by simp [hlen], ?_⟩
    intro i hi
    cases i with
    | zero => exact ⟨seed, s₀, d₀, by simp, h₀⟩
    | succ j =>
      obtain ⟨s₁, s₂, di, hj, hdi⟩ := hidx j (by omega)
      exact ⟨s₁, s₂, di, by simpa using hj, hdi⟩

/-- Witness for C7 at the two-hyperparameter searcher `sAB` with a bound
choice oracle, `n = 2`. -/
theorem claim_C7_witness :
    default_search sAB 2 = .ok (List.replicate 2 [("a", (1 : Int)), ("b", 10)]) ∧
      ∃ l s', random_search (some chMod) sAB 2 0 = .ok (l, s') ∧ l.length = 2 ∧
        ∀ i, i < 2 → ∃ s₁ s₂ di, l[i]? = some di ∧
          random_dict (some chMod) sAB s₁ = .ok (di, s₂) :=
  claim_C7_search_lengths (some chMod) sAB 2 0 [("a", (1 : Int)), ("b", 10)]
    rfl (by decide)

end HyperparameterSearcher

namespace HyperparameterSearcher

universe w4

variable {α : Type w4} [DecidableEq α]

theorem cs_inner_ok {np? : Option (Nat → List α → α)} {ovr : List (String × Gen α)}
    {res : List (Dict α)} {i : Nat} {di : Dict α} (seed : Nat)
    (hres : res[i]? = some di)
    (hdraw : ∀ p ∈ ovr, drawOK np? p.2 = true) :
    ∃ res' s', cs_inner np? ovr res i seed = .ok (res', s') ∧
      res'.length = res.length ∧
      (∀ j, j ≠ i → res'[j]? = res[j]?) ∧
      ∃ di', res'[i]? = some di' ∧
        (∀ name, name ∉ ovr.map Prod.fst → alookup name di' = alookup name di) ∧
        ((ovr.map Prod.fst).Nodup →
          ∀ p ∈ ovr, ∃ v s₁ s₂, generate_random np? p.2 s₁ = .ok (v, s₂) ∧
            alookup p.1 di' = some v) := by
  induction ovr generalizing res seed di with
  | nil =>
    exact ⟨res, seed, rfl, rfl, fun j _ => rfl, di, hres, fun name _ => rfl,
      fun _ p hp => absurd hp (by simp)⟩
  | cons q rest ih =>
    obtain ⟨name, g⟩ := q
    obtain ⟨v, s₁, hv⟩ := generate_random_ok
      (hdraw (name, g) (List.mem_cons_self _ _)) seed
    have hlt : i < res.length := (List.getElem?_eq_some.mp hres).1
    have hset : setDict res i name v = .ok (res.set i (dictSet di name v)) := by
      simp [setDict, hres]
    have hres₂ : (res.set i (dictSet di name v))[i]? = some (dictSet di name v) :=
      List.getElem?_set_eq hlt
    obtain ⟨res', s', hcs, hlen, hother, di', hdi', hP1, hP2⟩ :=
      ih s₁ hres₂ (fun p hp => hdraw p (List.mem_cons_of_mem _ hp))
    refine ⟨res', s', ?_, ?_, ?_, di', hdi', ?_, ?_⟩
    · simp only [cs_inner, hv, exceptOkBind]
      rw [hset]
      simpa using hcs
    · rw [hlen, List.length_set]
    · intro j hj
      rw [hother j hj, List.getElem?_set_ne (fun h => hj h.symm)]
    · intro nm hnm
      have hne : nm ≠ name := by
        intro h; subst h; exact hnm (by simp)
      have hnr : nm ∉ rest.map Prod.fst := by
        intro h; exact hnm (by simp [h])
      rw [hP1 nm hnr, alookup_dictSet_ne _ _ hne]
    · intro hnd p hp
      have hnodup := hnd
      simp only [List.map_cons, List.nodup_cons] at hnodup
      obtain ⟨hnotin, hndrest⟩ := hnodup
      rcases List.mem_cons.mp hp with heq | hmem
      · subst heq
        refine ⟨v, seed, s₁, hv, ?_⟩
        rw [hP1 name hnotin, alookup_dictSet_self]
      · exact hP2 hndrest p hmem

theorem cs_loop_ok {np? : Option (Nat → List α → α)} {ovr : List (String × Gen α)}
    {d : Dict α} (hdraw : ∀ p ∈ ovr, drawOK np? p.2 = true) :
    ∀ (is : List Nat) (res : List (Dict α)) (seed : Nat),
    is.Nodup → (∀ i ∈ is, res[i]? = some d) →
    ∃ res' s', cs_loop np? ovr is res seed = .ok (res', s') ∧
      res'.length = res.length ∧
      (∀ j, j ∉ is → res'[j]? = res[j]?) ∧
      (∀ i ∈ is, ∃ di, res'[i]? = some di ∧
        (∀ name, name ∉ ovr.map Prod.fst → alookup name di = alookup name d) ∧
        ((ovr.map Prod.fst).Nodup →
          ∀ p ∈ ovr, ∃ v s₁ s₂, generate_random np? p.2 s₁ = .ok (v, s₂) ∧
            alookup p.1 di = some v)) := by
  intro is
  induction is with
  | nil =>
    intro res seed _ _
    exact ⟨res, seed, rfl, rfl, fun j _ => rfl, fun i hi => absurd hi (by simp)⟩
  | cons i rest ih =>
    intro res seed hnd hall
    have hndrest : rest.Nodup := (List.nodup_cons.mp hnd).2
    have hinotin : i ∉ rest := (List.nodup_cons.mp hnd).1
    obtain ⟨res₂, s₂, hcs, hlen₂, hother₂, di, hdi, hP1, hP2⟩ :=
      cs_inner_ok seed (hall i (List.mem_cons_self _ _)) hdraw
    obtain ⟨res', s', hloop, hlen, hother, hmem⟩ := ih res₂ s₂ hndrest
      (fun j hj => by
        rw [hother₂ j (fun h => hinotin (h ▸ hj))]
        exact hall j (List.mem_cons_of_mem _ hj))
    refine ⟨res', s', ?_, by rw [hlen, hlen₂], ?_, ?_⟩
    · simp only [cs_loop, hcs, exceptOkBind]
      simpa using hloop
    · intro j hj
      rw [hother j (fun h => hj (List.mem_cons_of_mem _ h)),
        hother₂ j (fun h => hj (h ▸ List.mem_cons_self _ _))]
    · intro i' hi'
      rcases List.mem_cons.mp hi' with heq | hmem'
      · subst heq
        exact ⟨di, by rw [hother i' hinotin]; exact hdi, hP1, hP2⟩
      · exact hmem i' hmem'

/-- C8: `custom_search(overrides, n)` returns exactly `n` dictionaries;
in each, every overridden name maps to a fresh `_generate_random` draw
from its override generator (a `FixedValue` override yields that literal
value in every dictionary), every non-overridden key keeps its default,
and override names bypass all validation — names absent from the generator
map are simply added to the output dictionaries. -/
theorem claim_C8_custom_search (np? : Option (Nat → List α → α)) (S : Searcher α)
    (ovr : List (String × Gen α)) (n seed : Nat) (d : Dict α)
    (hd : default_dict S = .ok d)
    (hdraw : ∀ p ∈ ovr, drawOK np? p.2 = true)
    (hnd : (ovr.map Prod.fst).Nodup) :
    ∃ l s', custom_search np? S ovr n seed = .ok (l, s') ∧ l.length = n ∧
      ∀ i, i < n → ∃ di, l[i]? = some di ∧
        (∀ name, name ∉ ovr.map Prod.fst → alookup name di = alookup name d) ∧
        (∀ p ∈ ovr, ∃ v s₁ s₂, generate_random np? p.2 s₁ = .ok (v, s₂) ∧
          alookup p.1 di = some v) ∧
        (∀ name v, (name, Gen.fixed v) ∈ ovr → alookup name di = some v) := by
  obtain ⟨res', s', hloop, hlen, _, hmem⟩ :=
    cs_loop_ok hdraw (List.range n) (List.replicate n d) seed (List.nodup_range n)
      (fun i hi => List.getElem?_replicate_of_lt (List.mem_range.mp hi))
  refine ⟨res', s', ?_, by rw [hlen, List.length_replicate], ?_⟩
  · simp only [custom_search, default_search_ok hd n, exceptOkBind]
    simpa using hloop
  · intro i hi
    obtain ⟨di, hdi, hP1, hP2⟩ := hmem i (List.mem_range.mpr hi)
    refine ⟨di, hdi, hP1, hP2 hnd, ?_⟩
    intro name v hpmem
    obtain ⟨v', s₁, s₂, hgen, hlook⟩ := hP2 hnd (name, Gen.fixed v) hpmem
    have : v' = v := by
      simp only [generate_random, Except.ok.injEq, Prod.mk.injEq] at hgen
      exact hgen.1.symm
    rw [hlook, this]

/-- Witness for C8: `custom_search({'z': 99}, n=3)` on `sAB` — the
override name `z` is not a hyperparameter of `sAB`. -/
theorem claim_C8_witness :
    ∃ l s', custom_search (some chMod) sAB [("z", Gen.fixed (99 : Int))] 3 0 =
        .ok (l, s') ∧ l.length = 3 ∧
      ∀ i, i < 3 → ∃ di, l[i]? = some di ∧
        (∀ name, name ∉ [("z", Gen.fixed (99 : Int))].map Prod.fst →
          alookup name di = alookup name [("a", (1 : Int)), ("b", 10)]) ∧
        (∀ p ∈ [("z", Gen.fixed (99 : Int))],
          ∃ v s₁ s₂, generate_random (some chMod) p.2 s₁ = .ok (v, s₂) ∧
            alookup p.1 di = some v) ∧
        (∀ name v, (name, Gen.fixed v) ∈ [("z", Gen.fixed (99 : Int))] →
          alookup name di = some v) :=
  claim_C8_custom_search (some chMod) sAB [("z", Gen.fixed (99 : Int))] 3 0
    [("a", (1 : Int)), ("b", 10)] rfl (by decide) (by decide)

end HyperparameterSearcher

namespace HyperparameterSearcher

universe w5

variable {α : Type w5} [DecidableEq α]

/-!
## `one_value_search` (C2): success on exact multiples, IndexError on the
remainder
-/

theorem choose_random_ok_of_good {np? : Option (Nat → List α → α)} {S : Searcher α}
    {name : String} {g : Gen α}
    (hg : alookup name S.hyperparams = some g) (hok : drawOK np? g = true) (s : Nat) :
    ∃ v s', choose_random np? S name s = .ok (v, s') := by
  obtain ⟨v, s', hv⟩ := generate_random_ok hok s
  exact ⟨v, s', by simp [choose_random, hg, hv]⟩

theorem ovs_loop_ok {np? : Option (Nat → List α → α)} {S : Searcher α}
    {interests : List String} {nRep : Nat}
    (hgood : ∀ h ∈ interests, ∃ g, alookup h S.hyperparams = some g ∧
      drawOK np? g = true) :
    ∀ (is : List Nat) (res : List (Dict α)) (seed : Nat),
    is.Nodup →
    (∀ i ∈ is, i < res.length) →
    (∀ i ∈ is, ∃ h, interests[i / nRep]? = some h) →
    ∃ res' s', ovs_loop np? S interests nRep is res seed = .ok (res', s') ∧
      res'.length = res.length ∧
      (∀ j, j ∉ is → res'[j]? = res[j]?) ∧
      (∀ i ∈ is, ∃ h v, interests[i / nRep]? = some h ∧
        (∃ s₁ s₂, choose_random np? S h s₁ = .ok (v, s₂)) ∧
        res'[i]? = (res[i]?).map (fun di => dictSet di h v)) := by
  intro is
  induction is with
  | nil =>
    intro res seed _ _ _
    exact ⟨res, seed, rfl, rfl, fun j _ => rfl, fun i hi => absurd hi (by simp)⟩
  | cons i rest ih =>
    intro res seed hnd hbound hidx
    have hndrest : rest.Nodup := (List.nodup_cons.mp hnd).2
    have hinotin : i ∉ rest := (List.nodup_cons.mp hnd).1
    obtain ⟨h, hh⟩ := hidx i (List.mem_cons_self _ _)
    have hmem : h ∈ interests := List.getElem?_mem hh
    obtain ⟨g, hg, hok⟩ := hgood h hmem
    obtain ⟨v, s₁, hv⟩ := choose_random_ok_of_good hg hok seed
    have hlt : i < res.length := hbound i (List.mem_cons_self _ _)
    have hresi : res[i]? = some res[i] := List.getElem?_eq_getElem hlt
    have hset : setDict res i h v = .ok (res.set i (dictSet res[i] h v)) := by
      simp [setDict, hresi]
    obtain ⟨res', s', hloop, hlen, hother, hprops⟩ := ih (res.set i (dictSet res[i] h v))
      s₁ hndrest
      (fun j hj => by rw [List.length_set]; exact hbound j (List.mem_cons_of_mem _ hj))
      (fun j hj => hidx j (List.mem_cons_of_mem _ hj))
    refine ⟨res', s', ?_, by rw [hlen, List.length_set], ?_, ?_⟩
    · simp only [ovs_loop, hh, hv, exceptOkBind]
      rw [hset]
      simpa using hloop
    · intro j hj
      rw [hother j (fun hjr => hj (List.mem_cons_of_mem _ hjr)),
        List.getElem?_set_ne (fun hij => hj (by rw [← hij]; exact List.mem_cons_self _ _))]
    · intro i' hi'
      rcases List.mem_cons.mp hi' with heq | hmem'
      · subst heq
        refine ⟨h, v, hh, ⟨seed, s₁, hv⟩, ?_⟩
        rw [hother i' hinotin, List.getElem?_set_eq hlt, hresi]
        rfl
      · obtain ⟨h', v', hh', hdraw', hres'⟩ := hprops i' hmem'
        refine ⟨h', v', hh', hdraw', ?_⟩
        rw [hres', List.getElem?_set_ne ?_]
        intro hii
        subst hii
        exact hinotin hmem'

theorem ovs_loop_err {np? : Option (Nat → List α → α)} {S : Searcher α}
    {interests : List String} {nRep : Nat}
    (hgood : ∀ h ∈ interests, ∃ g, alookup h S.hyperparams = some g ∧
      drawOK np? g = true) :
    ∀ (is₁ : List Nat) (i₀ : Nat) (is₂ : List Nat) (res : List (Dict α)) (seed : Nat),
    (∀ i ∈ is₁, i < res.length) →
    (∀ i ∈ is₁, ∃ h, interests[i / nRep]? = some h) →
    interests[i₀ / nRep]? = none →
    ovs_loop np? S interests nRep (is₁ ++ i₀ :: is₂) res seed = .error .indexError := by
  intro is₁
  induction is₁ with
  | nil =>
    intro i₀ is₂ res seed _ _ hnone
    simp [ovs_loop, hnone]
  | cons i rest ih =>
    intro i₀ is₂ res seed hbound hidx hnone
    obtain ⟨h, hh⟩ := hidx i (List.mem_cons_self _ _)
    have hmem : h ∈ interests := List.getElem?_mem hh
    obtain ⟨g, hg, hok⟩ := hgood h hmem
    obtain ⟨v, s₁, hv⟩ := choose_random_ok_of_good hg hok seed
    have hlt : i < res.length := hbound i (List.mem_cons_self _ _)
    have hresi : res[i]? = some res[i] := List.getElem?_eq_getElem hlt
    have hset : setDict res i h v = .ok (res.set i (dictSet res[i] h v)) := by
      simp [setDict, hresi]
    have hrec := ih i₀ is₂ (res.set i (dictSet res[i] h v)) s₁
      (fun j hj => by rw [List.length_set]; exact hbound j (List.mem_cons_of_mem _ hj))
      (fun j hj => hidx j (List.mem_cons_of_mem _ hj)) hnone
    simp only [List.cons_append, ovs_loop, hh, hv, exceptOkBind]
    rw [hset]
    simpa using hrec

/-- C2 (amended): with non-empty interests (all naming hyperparameters
whose generators can draw) and `nRep = n // k ≥ 1`, `one_value_search`
returns exactly `n` dictionaries — dictionary `i` overriding
`interests[i // nRep]` with a random draw — when `k` divides `n`; but when
`k` does not divide `n`, the trailing indices compute `interests[k]` and
the call raises IndexError instead of clamping to the last interest. -/
theorem claim_C2_one_value_search_amended (np? : Option (Nat → List α → α))
    (S : Searcher α) (interests : List String) (n seed : Nat) (d : Dict α)
    (hne : interests ≠ [])
    (hd : default_dict S = .ok d)
    (hrep : n / interests.length ≠ 0)
    (hgood : ∀ h ∈ interests, ∃ g, alookup h S.hyperparams = some g ∧
      drawOK np? g = true) :
    (interests.length ∣ n →
      ∃ l s', one_value_search np? S interests n seed = .ok (l, s') ∧
        l.length = n ∧
        ∀ i, i < n → ∃ h v, interests[i / (n / interests.length)]? = some h ∧
          (∃ s₁ s₂, choose_random np? S h s₁ = .ok (v, s₂)) ∧
          l[i]? = some (dictSet d h v)) ∧
    (¬ interests.length ∣ n →
      one_value_search np? S interests n seed = .error .indexError) := by
  have hlen : ¬ interests.length = 0 := by
    intro h0
    exact hne (List.length_eq_zero.mp h0)
  have hklt : 0 < interests.length := Nat.pos_of_ne_zero hlen
  have hnreppos : 0 < n / interests.length := Nat.pos_of_ne_zero hrep
  constructor
  · intro hdvd
    have hn : interests.length * (n / interests.length) = n :=
      Nat.mul_div_cancel' hdvd
    obtain ⟨res', s', hloop, hlenr, _, hprops⟩ :=
      ovs_loop_ok hgood (List.range n) (List.replicate n d) seed (List.nodup_range n)
        (fun i hi => by
          rw [List.length_replicate]
          exact List.mem_range.mp hi)
        (fun i hi => by
          have hilt : i < n := List.mem_range.mp hi
          have : i / (n / interests.length) < interests.length := by
            rw [Nat.div_lt_iff_lt_mul hnreppos]
            omega
          exact ⟨interests[i / (n / interests.length)], List.getElem?_eq_getElem this⟩)
    refine ⟨res', s', ?_, by rw [hlenr, List.length_replicate], ?_⟩
    · simp only [one_value_search, if_neg hlen, if_neg hrep,
        default_search_ok hd n, exceptOkBind]
      exact hloop
    · intro i hi
      obtain ⟨h, v, hh, hdraw, hres⟩ := hprops i (List.mem_range.mpr hi)
      refine ⟨h, v, hh, hdraw, ?_⟩
      rw [hres, List.getElem?_replicate_of_lt hi]
      rfl
  · intro hndvd
    have hmod : n % interests.length ≠ 0 := by
      intro h0
      exact hndvd (Nat.dvd_of_mod_eq_zero h0)
    have hdm := Nat.div_add_mod n interests.length
    have hmlt := Nat.mod_lt n hklt
    have hi₀lt : interests.length * (n / interests.length) < n := by omega
    have hsplit : List.range n =
        List.range (interests.length * (n / interests.length)) ++
          (interests.length * (n / interests.length)) ::
            List.range' (interests.length * (n / interests.length) + 1)
              (n - interests.length * (n / interests.length) - 1) := by
      have happ := List.range'_append_1 0 (interests.length * (n / interests.length))
        (n - interests.length * (n / interests.length))
      rw [Nat.zero_add] at happ
      rw [show n - interests.length * (n / interests.length) +
        interests.length * (n / interests.length) = n from by omega] at happ
      rw [show n - interests.length * (n / interests.length) =
        (n - interests.length * (n / interests.length) - 1) + 1 from by omega,
        List.range'_succ] at happ
      rw [List.range_eq_range', ← happ, List.range_eq_range']
    have herr := ovs_loop_err hgood
      (List.range (interests.length * (n / interests.length)))
      (interests.length * (n / interests.length))
      (List.range' (interests.length * (n / interests.length) + 1)
        (n - interests.length * (n / interests.length) - 1))
      (List.replicate n d) seed
      (fun i hi => by
        rw [List.length_replicate]
        have := List.mem_range.mp hi
        omega)
      (fun i hi => by
        have hilt := List.mem_range.mp hi
        have : i / (n / interests.length) < interests.length := by
          rw [Nat.div_lt_iff_lt_mul hnreppos]
          omega
        exact ⟨interests[i / (n / interests.length)], List.getElem?_eq_getElem this⟩)
      (by
        rw [Nat.mul_div_left interests.length hnreppos]
        exact List.getElem?_eq_none (le_refl _))
    simp only [one_value_search, if_neg hlen, if_neg hrep,
      default_search_ok hd n, exceptOkBind]
    rw [← hsplit] at herr
    exact herr

end HyperparameterSearcher

namespace HyperparameterSearcher

universe w6

variable {α : Type w6} [DecidableEq α]

/-- Witness for C2 at `interests = ['a','b']`, `n = 4` (an exact multiple
of `k = 2`): the search succeeds and overrides interest `i // 2` in
dictionary `i`. -/
theorem claim_C2_amended_witness :
    ∃ l s', one_value_search (some chMod) sAB ["a", "b"] 4 0 = .ok (l, s') ∧
      l.length = 4 ∧
      ∀ i, i < 4 → ∃ h v, (["a", "b"] : List String)[i / (4 / 2)]? = some h ∧
        (∃ s₁ s₂, choose_random (some chMod) sAB h s₁ = .ok (v, s₂)) ∧
        l[i]? = some (dictSet [("a", (1 : Int)), ("b", 10)] h v) :=
  (claim_C2_one_value_search_amended (some chMod) sAB ["a", "b"] 4 0
    [("a", (1 : Int)), ("b", 10)] (by decide) rfl (by decide)
    (by
      intro h hh
      fin_cases hh
      · exact ⟨Gen.cands [1, 2, 3], rfl, rfl⟩
      · exact ⟨Gen.cands [10, 20], rfl, rfl⟩)).1 (by decide)

/-!
## `one_value_grid_search` (C3, C4)
-/

theorem pyIndex_eq_none {x : α} {l : List α} :
    pyIndex x l = none ↔ x ∉ l := by
  induction l with
  | nil => simp [pyIndex]
  | cons y rest ih =>
    by_cases hy : y = x
    · subst hy
      simp [pyIndex]
    · simp [pyIndex, hy, ih, Ne.symm hy]

theorem pyIndex_lt_length {x : α} {l : List α} {i : Nat}
    (h : pyIndex x l = some i) : i < l.length := by
  induction l generalizing i with
  | nil => simp [pyIndex] at h
  | cons y rest ih =>
    simp only [List.length_cons]
    by_cases hy : y = x
    · subst hy
      simp [pyIndex] at h
      omega
    · simp only [pyIndex, if_neg hy, Option.map_eq_some'] at h
      obtain ⟨j, hj, hji⟩ := h
      have := ih hj
      omega

theorem pyIndex_of_mem {x : α} {l : List α} (h : x ∈ l) :
    ∃ i, pyIndex x l = some i := by
  cases hp : pyIndex x l with
  | none => exact absurd (pyIndex_eq_none.mp hp) (by simp [h])
  | some i => exact ⟨i, rfl⟩

theorem count_eq_one_not_mem_eraseIdx {x : α} :
    ∀ (l : List α) (i : Nat), pyIndex x l = some i → l.count x = 1 →
      x ∉ l.eraseIdx i := by
  intro l
  induction l with
  | nil => intro i h; simp [pyIndex] at h
  | cons y rest ih =>
    intro i h hcount
    by_cases hy : y = x
    · subst hy
      simp [pyIndex] at h
      subst h
      simp only [List.eraseIdx_cons_zero]
      simp [List.count_cons] at hcount
      exact List.count_eq_zero.mp hcount
    · simp only [pyIndex, if_neg hy, Option.map_eq_some'] at h
      obtain ⟨j, hj, hji⟩ := h
      subst hji
      simp only [List.eraseIdx_cons_succ, List.mem_cons]
      rintro (heq | hmem)
      · exact hy heq.symm
      · have hcr : rest.count x = 1 := by
          have hbeq : (y == x) = false := by simp [hy]
          simp [List.count_cons, hbeq] at hcount
          exact hcount
        exact ih j hj hcr hmem

/-- Looking up `h` in the association list `ints.map (fun h => (h, f h))`
yields `f h` for any `h ∈ ints`. -/
theorem alookup_map_self {f : String → List α} :
    ∀ {ints : List String} {h : String}, h ∈ ints →
      alookup h (ints.map (fun h' => (h', f h'))) = some (f h) := by
  intro ints
  induction ints with
  | nil => intro h hh; simp at hh
  | cons h₀ rest ih =>
    intro h hh
    by_cases he : h₀ = h
    · subst he
      simp [alookup]
    · rcases List.mem_cons.mp hh with heq | hmem
      · exact absurd heq.symm he
      · simp only [List.map_cons, alookup, if_neg he]
        exact ih hmem

end HyperparameterSearcher

namespace HyperparameterSearcher

universe w7

variable {α : Type w7} [DecidableEq α]

/-- Witness for C5: `HyperparameterSearcher({'x': [1,2], 'f': <raising>},
hyp_defaults={'y': 5})` fails construction. -/
theorem claim_C5_witness : ∃ e, check_config sBad = .error e :=
  (claim_C5_check_config_accumulates sBad).1.mpr (Or.inl ⟨"y", by decide, rfl⟩)

theorem grid_mapM_eq {S : Searcher α} :
    ∀ {interests : List String},
    (∀ h ∈ interests, (alookup h S.hyperparams).isSome) →
    interests.mapM (fun h =>
      match alookup h S.hyperparams with
      | none => Except.error (PyErr.keyError h)
      | some g => Except.ok g) =
      .ok (interests.map (fun h => gen_of S h)) := by
  intro interests
  induction interests with
  | nil => intro _; rfl
  | cons h rest ih =>
    intro hsub
    obtain ⟨g, hg⟩ := Option.isSome_iff_exists.mp (hsub h (List.mem_cons_self _ _))
    have hgen : gen_of S h = g := by simp [gen_of, hg]
    rw [List.mapM_cons]
    rw [ih (fun h' hh' => hsub h' (List.mem_cons_of_mem _ hh'))]
    simp [hg, hgen]

theorem non_default_list_spec {S : Searcher α} {h : String} {dv : α}
    (hdv : choose_default S h = .ok dv) (hmem : dv ∈ cands_of S h) :
    ∃ i, pyIndex dv (cands_of S h) = some i ∧
      non_default_list S h = (cands_of S h).eraseIdx i := by
  obtain ⟨i, hpi⟩ := pyIndex_of_mem hmem
  exact ⟨i, hpi, by simp [non_default_list, hdv, hpi]⟩

theorem nd_loop_eq {S : Searcher α} :
    ∀ {interests : List String},
    (∀ h ∈ interests, ∃ l, alookup h S.hyperparams = some (.cands l)) →
    (∀ h ∈ interests, ∃ dv, choose_default S h = .ok dv ∧ dv ∈ cands_of S h) →
    nd_loop S interests = .ok (interests.map (fun h => (h, non_default_list S h))) := by
  intro interests
  induction interests with
  | nil => intro _ _; rfl
  | cons h rest ih =>
    intro hall hdef
    obtain ⟨l, hl⟩ := hall h (List.mem_cons_self _ _)
    have hco : cands_of S h = l := by simp [cands_of, hl]
    obtain ⟨dv, hdv, hdvm⟩ := hdef h (List.mem_cons_self _ _)
    obtain ⟨i, hpi, hndl⟩ := non_default_list_spec hdv hdvm
    rw [hco] at hpi
    have hIH := ih (fun h' hh' => hall h' (List.mem_cons_of_mem _ hh'))
      (fun h' hh' => hdef h' (List.mem_cons_of_mem _ hh'))
    simp only [nd_loop, hl, Gen.listVal, hdv, exceptOkBind, hpi, hIH,
      exceptPureEq, List.map_cons]
    rw [hndl, hco]

theorem nd_loop_err {S : Searcher α} :
    ∀ {interests : List String},
    (∀ h ∈ interests, ∃ l, alookup h S.hyperparams = some (.cands l)) →
    (∀ h ∈ interests, ∃ dv, choose_default S h = .ok dv) →
    (∃ h ∈ interests, ∀ dv, choose_default S h = .ok dv → dv ∉ cands_of S h) →
    ∃ e, nd_loop S interests = .error e := by
  intro interests
  induction interests with
  | nil =>
    intro _ _ hbad
    obtain ⟨h, hh, _⟩ := hbad
    simp at hh
  | cons h rest ih =>
    intro hall hdefs hbad
    obtain ⟨l, hl⟩ := hall h (List.mem_cons_self _ _)
    have hco : cands_of S h = l := by simp [cands_of, hl]
    obtain ⟨dv, hdv⟩ := hdefs h (List.mem_cons_self _ _)
    by_cases hin : dv ∈ l
    · have hh₀ : ∃ h₀ ∈ rest, ∀ dv₀, choose_default S h₀ = .ok dv₀ →
          dv₀ ∉ cands_of S h₀ := by
        obtain ⟨h₀, hh₀, hfail⟩ := hbad
        rcases List.mem_cons.mp hh₀ with heq | hmem
        · subst heq
          exact absurd (hco ▸ hin) (hfail dv hdv)
        · exact ⟨h₀, hmem, hfail⟩
      obtain ⟨i, hpi⟩ := pyIndex_of_mem hin
      obtain ⟨e, he⟩ := ih (fun h' hh' => hall h' (List.mem_cons_of_mem _ hh'))
        (fun h' hh' => hdefs h' (List.mem_cons_of_mem _ hh')) hh₀
      refine ⟨e, ?_⟩
      simp only [nd_loop, hl, Gen.listVal, hdv, exceptOkBind, hpi, he,
        exceptErrorBind]
    · have hpi : pyIndex dv l = none := pyIndex_eq_none.mpr hin
      refine ⟨.valueError, ?_⟩
      simp only [nd_loop, hl, Gen.listVal, hdv, exceptOkBind, hpi]

omit [DecidableEq α] in
theorem getElem?_append_length (l₁ : List α) (x : α) (t : List α) :
    (l₁ ++ x :: t)[l₁.length]? = some x := by
  rw [List.getElem?_append_right (le_refl _)]
  simp

omit [DecidableEq α] in
theorem set_append_length (l₁ : List α) (x y : α) (t : List α) :
    (l₁ ++ x :: t).set l₁.length y = l₁ ++ y :: t := by
  induction l₁ with
  | nil => simp
  | cons a rest ih => simp [List.set, ih]

theorem fill_inner_spec {name : String} {d : Dict α} :
    ∀ (vs : List α) (res₁ rest : List (Dict α)),
    fill_inner name vs (res₁ ++ List.replicate vs.length d ++ rest) res₁.length =
      .ok (res₁ ++ vs.map (fun v => dictSet d name v) ++ rest,
        res₁.length + vs.length) := by
  intro vs
  induction vs with
  | nil => intro res₁ rest; simp [fill_inner]
  | cons v vs' ih =>
    intro res₁ rest
    have h1 : res₁ ++ List.replicate (v :: vs').length d ++ rest =
        res₁ ++ d :: (List.replicate vs'.length d ++ rest) := by
      simp [List.replicate_succ]
    rw [h1]
    have hget := getElem?_append_length res₁ d (List.replicate vs'.length d ++ rest)
    have hsd : setDict (res₁ ++ d :: (List.replicate vs'.length d ++ rest))
        res₁.length name v =
        .ok (res₁ ++ dictSet d name v :: (List.replicate vs'.length d ++ rest)) := by
      simp only [setDict, hget]
      rw [set_append_length]
    simp only [fill_inner, hsd, exceptOkBind]
    have h2 : res₁ ++ dictSet d name v :: (List.replicate vs'.length d ++ rest) =
        (res₁ ++ [dictSet d name v]) ++ List.replicate vs'.length d ++ rest := by
      simp
    have h3 : res₁.length + 1 = (res₁ ++ [dictSet d name v]).length := by
      simp
    rw [h2, h3, ih (res₁ ++ [dictSet d name v]) rest]
    simp [Nat.add_assoc, Nat.add_comm 1 vs'.length]

theorem fill_loop_spec {nd : List (String × List α)} {col : String → List α}
    (d : Dict α) :
    ∀ (ints : List String) (res₁ : List (Dict α)),
    (∀ h ∈ ints, alookup h nd = some (col h)) →
    fill_loop nd ints
      (res₁ ++ List.replicate ((ints.map (fun h => (col h).length)).sum) d)
      res₁.length =
      .ok (res₁ ++ (ints.map (fun h =>
          (col h).map (fun v => dictSet d h v))).flatten,
        res₁.length + (ints.map (fun h => (col h).length)).sum) := by
  intro ints
  induction ints with
  | nil => intro res₁ _; simp [fill_loop]
  | cons h rest ih =>
    intro res₁ hcol
    have hnd : alookup h nd = some (col h) := hcol h (List.mem_cons_self _ _)
    have h1 : res₁ ++ List.replicate
        (((h :: rest).map (fun h' => (col h').length)).sum) d =
        res₁ ++ List.replicate (col h).length d ++
          List.replicate ((rest.map (fun h' => (col h').length)).sum) d := by
      rw [List.map_cons, List.sum_cons, List.replicate_add, ← List.append_assoc]
    rw [h1]
    simp only [fill_loop, hnd]
    rw [fill_inner_spec (col h) res₁
      (List.replicate ((rest.map (fun h' => (col h').length)).sum) d)]
    simp only [exceptOkBind]
    have h2 : res₁ ++ (col h).map (fun v => dictSet d h v) ++
        List.replicate ((rest.map (fun h' => (col h').length)).sum) d =
        (res₁ ++ (col h).map (fun v => dictSet d h v)) ++
          List.replicate ((rest.map (fun h' => (col h').length)).sum) d := by
      simp
    have h3 : res₁.length + (col h).length =
        (res₁ ++ (col h).map (fun v => dictSet d h v)).length := by
      simp
    rw [h2, h3, ih (res₁ ++ (col h).map (fun v => dictSet d h v))
      (fun h' hh' => hcol h' (List.mem_cons_of_mem _ hh'))]
    simp [Nat.add_assoc]

end HyperparameterSearcher

namespace HyperparameterSearcher

universe w8

variable {α : Type w8} [DecidableEq α]

theorem length_le_sum_map {f : String → Nat} :
    ∀ (l : List String), (∀ h ∈ l, 1 ≤ f h) → l.length ≤ (l.map f).sum := by
  intro l
  induction l with
  | nil => intro _; simp
  | cons h rest ih =>
    intro h1
    have hh := h1 h (List.mem_cons_self _ _)
    have hrec := ih (fun h' hh' => h1 h' (List.mem_cons_of_mem _ hh'))
    simp only [List.map_cons, List.sum_cons, List.length_cons]
    omega

theorem sum_sub_lengths {f g : String → Nat} :
    ∀ (ints : List String), (∀ h ∈ ints, 1 ≤ f h) → (∀ h ∈ ints, g h = f h - 1) →
    (ints.map f).sum + 1 - ints.length = 1 + (ints.map g).sum := by
  intro ints
  induction ints with
  | nil => intro _ _; simp
  | cons h rest ih =>
    intro h1 h2
    have hh1 : 1 ≤ f h := h1 h (List.mem_cons_self _ _)
    have hh2 : g h = f h - 1 := h2 h (List.mem_cons_self _ _)
    have hrec := ih (fun h' hh' => h1 h' (List.mem_cons_of_mem _ hh'))
      (fun h' hh' => h2 h' (List.mem_cons_of_mem _ hh'))
    have hlen_le := length_le_sum_map rest
      (fun h' hh' => h1 h' (List.mem_cons_of_mem _ hh'))
    simp only [List.map_cons, List.sum_cons, List.length_cons]
    omega

/-- The closed form of a successful `one_value_grid_search`: the default
dictionary followed by, for each interest in order, one single-key
override per non-default candidate value, in candidate-list order. -/
theorem one_value_grid_search_eq {S : Searcher α} {interests : List String}
    {d : Dict α}
    (hd : default_dict S = .ok d)
    (hall : ∀ h ∈ interests, ∃ l, alookup h S.hyperparams = some (.cands l))
    (hdef : ∀ h ∈ interests, ∃ dv, choose_default S h = .ok dv ∧ dv ∈ cands_of S h) :
    one_value_grid_search S interests =
      .ok (d :: (interests.map (fun h =>
        (non_default_list S h).map (fun v => dictSet d h v))).flatten) := by
  have hsub : ∀ h ∈ interests, (alookup h S.hyperparams).isSome := by
    intro h hh
    obtain ⟨l, hl⟩ := hall h hh
    simp [hl]
  have hgenof : ∀ h ∈ interests, gen_of S h = .cands (cands_of S h) := by
    intro h hh
    obtain ⟨l, hl⟩ := hall h hh
    simp [gen_of, cands_of, hl]
  have hlistall : (interests.map (fun h => gen_of S h)).all Gen.isList = true := by
    rw [List.all_eq_true]
    intro g hg
    obtain ⟨h, hh, rfl⟩ := List.mem_map.mp hg
    rw [hgenof h hh]
    rfl
  have hflen : ∀ h ∈ interests, 1 ≤ (cands_of S h).length := by
    intro h hh
    obtain ⟨dv, _, hdvm⟩ := hdef h hh
    exact List.length_pos_of_mem hdvm
  have hglen : ∀ h ∈ interests, (non_default_list S h).length =
      (cands_of S h).length - 1 := by
    intro h hh
    obtain ⟨dv, hdv, hdvm⟩ := hdef h hh
    obtain ⟨i, hpi, hndl⟩ := non_default_list_spec hdv hdvm
    rw [hndl, List.length_eraseIdx, if_pos (pyIndex_lt_length hpi)]
  have harith := sum_sub_lengths interests hflen hglen
  have hlenmap : (interests.map (fun h => gen_of S h)).map Gen.listLen =
      interests.map (fun h => (cands_of S h).length) := by
    rw [List.map_map]
    refine List.map_congr_left (fun h hh => ?_)
    simp only [Function.comp_apply]
    rw [hgenof h hh]
    rfl
  have hcol : ∀ h ∈ interests,
      alookup h (interests.map (fun h' => (h', non_default_list S h'))) =
        some (non_default_list S h) :=
    fun h hh => alookup_map_self hh
  have hfill := fill_loop_spec d interests [d] hcol
  simp only [List.length_cons, List.length_nil, Nat.zero_add] at hfill
  simp only [one_value_grid_search, grid_mapM_eq hsub, exceptOkBind,
    if_pos hlistall, hlenmap, harith, nd_loop_eq hall hdef,
    default_search_ok hd, exceptOkBind]
  rw [show 1 + (interests.map (fun h => (non_default_list S h).length)).sum =
    (interests.map (fun h => (non_default_list S h).length)).sum + 1 from by omega]
  rw [List.replicate_succ']
  have hrepl : List.replicate
      ((interests.map (fun h => (non_default_list S h).length)).sum) d ++ [d] =
      [d] ++ List.replicate
        ((interests.map (fun h => (non_default_list S h).length)).sum) d := by
    rw [← List.replicate_succ', List.singleton_append, ← List.replicate_succ]
  rw [hrepl]
  rw [hfill]
  simp only [exceptOkBind]
  rw [if_pos (Nat.add_comm 1
    ((interests.map (fun h => (non_default_list S h).length)).sum))]
  simp

/-- C3: with list-valued interests whose resolved defaults occur exactly
once in their candidate lists, `one_value_grid_search` returns exactly
`sum(len(candidates)) - len(interests) + 1` dictionaries; output 0 is the
default dictionary; and every later output differs from the default in
exactly one key — an interest — whose value comes from that interest's
candidate list and never equals its resolved default. -/
theorem claim_C3_grid_search_shape (S : Searcher α) (interests : List String)
    (d : Dict α)
    (hd : default_dict S = .ok d)
    (hall : ∀ h ∈ interests, ∃ l, alookup h S.hyperparams = some (.cands l))
    (hdef : ∀ h ∈ interests, ∃ dv, choose_default S h = .ok dv ∧
      (cands_of S h).count dv = 1) :
    ∃ res, one_value_grid_search S interests = .ok res ∧
      res.length = (interests.map (fun h => (cands_of S h).length)).sum + 1
        - interests.length ∧
      res[0]? = some d ∧
      ∀ j, j + 1 < res.length → ∃ dj h v dv, res[j + 1]? = some dj ∧
        h ∈ interests ∧ v ∈ cands_of S h ∧ choose_default S h = .ok dv ∧
        v ≠ dv ∧ alookup h dj = some v ∧ alookup h d = some dv ∧
        (∀ h', h' ≠ h → alookup h' dj = alookup h' d) := by
  have hdef' : ∀ h ∈ interests, ∃ dv, choose_default S h = .ok dv ∧
      dv ∈ cands_of S h := by
    intro h hh
    obtain ⟨dv, hdv, hcount⟩ := hdef h hh
    refine ⟨dv, hdv, ?_⟩
    rw [← List.count_pos_iff_mem]
    omega
  have heq := one_value_grid_search_eq hd hall hdef'
  have hflen : ∀ h ∈ interests, 1 ≤ (cands_of S h).length := by
    intro h hh
    obtain ⟨dv, _, hdvm⟩ := hdef' h hh
    exact List.length_pos_of_mem hdvm
  have hglen : ∀ h ∈ interests, (non_default_list S h).length =
      (cands_of S h).length - 1 := by
    intro h hh
    obtain ⟨dv, hdv, hdvm⟩ := hdef' h hh
    obtain ⟨i, hpi, hndl⟩ := non_default_list_spec hdv hdvm
    rw [hndl, List.length_eraseIdx, if_pos (pyIndex_lt_length hpi)]
  have harith := sum_sub_lengths interests hflen hglen
  refine ⟨_, heq, ?_, by simp, ?_⟩
  · simp only [List.length_cons, List.length_flatten, List.map_map]
    rw [harith]
    have : (interests.map (List.length ∘ fun h =>
        (non_default_list S h).map (fun v => dictSet d h v))).sum =
        (interests.map (fun h => (non_default_list S h).length)).sum := by
      refine congrArg List.sum (List.map_congr_left (fun h _ => ?_))
      simp
    rw [this]
    omega
  · intro j hj
    simp only [List.length_cons] at hj
    have hj' : j < ((interests.map (fun h =>
        (non_default_list S h).map (fun v => dictSet d h v))).flatten).length := by
      omega
    obtain ⟨x, hsome⟩ : ∃ x, ((interests.map (fun h =>
        (non_default_list S h).map (fun v => dictSet d h v))).flatten)[j]? =
        some x := ⟨_, List.getElem?_eq_getElem hj'⟩
    have hxmem : x ∈ (interests.map (fun h =>
        (non_default_list S h).map (fun v => dictSet d h v))).flatten :=
      List.getElem?_mem hsome
    obtain ⟨inner, hinner, hxin⟩ := List.mem_flatten.mp hxmem
    obtain ⟨h, hh, rfl⟩ := List.mem_map.mp hinner
    obtain ⟨v, hvmem, rfl⟩ := List.mem_map.mp hxin
    obtain ⟨dv, hdv, hcount⟩ := hdef h hh
    have hdvm : dv ∈ cands_of S h := by
      rw [← List.count_pos_iff_mem]
      omega
    obtain ⟨i, hpi, hndl⟩ := non_default_list_spec hdv hdvm
    have hvc : v ∈ cands_of S h := by
      rw [hndl] at hvmem
      exact List.eraseIdx_subset _ _ hvmem
    have hvne : v ≠ dv := by
      intro hveq
      subst hveq
      rw [hndl] at hvmem
      exact count_eq_one_not_mem_eraseIdx _ i hpi hcount hvmem
    have hsub : (alookup h S.hyperparams).isSome := by
      obtain ⟨l, hl⟩ := hall h hh
      simp [hl]
    obtain ⟨dv', hdv', hald⟩ := default_dict_lookup hd h hsub
    have hdveq : dv' = dv := by
      rw [hdv] at hdv'
      injection hdv' with hinj
      exact hinj.symm
    have hald2 : alookup h d = some dv := by rw [hald, hdveq]
    refine ⟨dictSet d h v, h, v, dv, ?_, hh, hvc, hdv, hvne,
      alookup_dictSet_self d h v, hald2, fun h' hne => alookup_dictSet_ne d v hne⟩
    rw [List.getElem?_cons_succ]
    exact hsome

/-- Witness for C3: the spec's own example,
`generators = {'a': [1,2,3], 'b': [10,20]}`, `interests = ['a','b']`. -/
theorem claim_C3_witness :
    ∃ res, one_value_grid_search sAB ["a", "b"] = .ok res ∧
      res.length = ((["a", "b"] : List String).map
        (fun h => (cands_of sAB h).length)).sum + 1 - 2 ∧
      res[0]? = some [("a", (1 : Int)), ("b", 10)] ∧
      ∀ j, j + 1 < res.length → ∃ dj h v dv, res[j + 1]? = some dj ∧
        h ∈ (["a", "b"] : List String) ∧ v ∈ cands_of sAB h ∧
        choose_default sAB h = .ok dv ∧ v ≠ dv ∧ alookup h dj = some v ∧
        alookup h [("a", (1 : Int)), ("b", 10)] = some dv ∧
        (∀ h', h' ≠ h → alookup h' dj = alookup h' [("a", (1 : Int)), ("b", 10)]) :=
  claim_C3_grid_search_shape sAB ["a", "b"] [("a", (1 : Int)), ("b", 10)] rfl
    (by
      intro h hh
      fin_cases hh
      · exact ⟨[1, 2, 3], rfl⟩
      · exact ⟨[10, 20], rfl⟩)
    (by
      intro h hh
      fin_cases hh
      · exact ⟨1, rfl, by decide⟩
      · exact ⟨10, rfl, by decide⟩)

end HyperparameterSearcher

namespace HyperparameterSearcher

universe w9

variable {α : Type w9} [DecidableEq α]

/-- C4: for a validly constructed searcher whose interests all name
hyperparameters, `one_value_grid_search` fails exactly when some named
generator is not list-valued or some resolved default is absent from its
candidate list; in all other cases it returns normally.  (The failure is
the `isinstance` assertion in the first case and the `list.index`
ValueError in the second — both the spec's call-time `ConfigError`.) -/
theorem claim_C4_grid_error_iff (S : Searcher α) (interests : List String)
    (d : Dict α)
    (hd : default_dict S = .ok d)
    (hsub : ∀ h ∈ interests, (alookup h S.hyperparams).isSome) :
    (∃ e, one_value_grid_search S interests = .error e) ↔
      ((∃ h ∈ interests, ∃ g, alookup h S.hyperparams = some g ∧
          g.isList = false) ∨
        (∃ h ∈ interests, ∃ l dv, alookup h S.hyperparams = some (.cands l) ∧
          choose_default S h = .ok dv ∧ dv ∉ l)) := by
  have hcd : ∀ h ∈ interests, ∃ dv, choose_default S h = .ok dv := by
    intro h hh
    obtain ⟨dv, hdv, _⟩ := default_dict_lookup hd h (hsub h hh)
    exact ⟨dv, hdv⟩
  constructor
  · rintro ⟨e, he⟩
    by_contra hno
    push_neg at hno
    obtain ⟨hnA, hnB⟩ := hno
    have hall : ∀ h ∈ interests, ∃ l, alookup h S.hyperparams = some (.cands l) := by
      intro h hh
      obtain ⟨g, hg⟩ := Option.isSome_iff_exists.mp (hsub h hh)
      cases g with
      | cands l => exact ⟨l, hg⟩
      | factory f => exact absurd rfl (hnA h hh (Gen.factory f) hg)
      | fixed v => exact absurd rfl (hnA h hh (Gen.fixed v) hg)
    have hdef : ∀ h ∈ interests, ∃ dv, choose_default S h = .ok dv ∧
        dv ∈ cands_of S h := by
      intro h hh
      obtain ⟨l, hl⟩ := hall h hh
      obtain ⟨dv, hdv⟩ := hcd h hh
      have hco : cands_of S h = l := by simp [cands_of, hl]
      rw [hco]
      exact ⟨dv, hdv, hnB h hh l dv hl hdv⟩
    rw [one_value_grid_search_eq hd hall hdef] at he
    exact absurd he (by simp)
  · intro hcond
    by_cases hA : ∃ h ∈ interests, ∃ g, alookup h S.hyperparams = some g ∧
        g.isList = false
    · obtain ⟨h, hh, g, hg, hnl⟩ := hA
      have hfalse : (interests.map (fun h => gen_of S h)).all Gen.isList = false := by
        rw [List.all_eq_false]
        refine ⟨gen_of S h, List.mem_map_of_mem _ hh, ?_⟩
        have : gen_of S h = g := by simp [gen_of, hg]
        rw [this, hnl]
        simp
      refine ⟨.notListError, ?_⟩
      simp only [one_value_grid_search, grid_mapM_eq hsub, exceptOkBind, hfalse]
      simp
    · have hall : ∀ h ∈ interests, ∃ l, alookup h S.hyperparams = some (.cands l) := by
        push_neg at hA
        intro h hh
        obtain ⟨g, hg⟩ := Option.isSome_iff_exists.mp (hsub h hh)
        cases g with
        | cands l => exact ⟨l, hg⟩
        | factory f =>
          exact absurd (hA h hh (Gen.factory f) hg) (by simp [Gen.isList])
        | fixed v =>
          exact absurd (hA h hh (Gen.fixed v) hg) (by simp [Gen.isList])
      rcases hcond with hA' | hB
      · exact absurd hA' hA
      · obtain ⟨h, hh, l, dv, hg, hdv, hnin⟩ := hB
        have hlistall : (interests.map (fun h => gen_of S h)).all Gen.isList
            = true := by
          rw [List.all_eq_true]
          intro g hgm
          obtain ⟨h', hh', rfl⟩ := List.mem_map.mp hgm
          obtain ⟨l', hl'⟩ := hall h' hh'
          have : gen_of S h' = .cands l' := by simp [gen_of, hl']
          rw [this]
          rfl
        obtain ⟨e, he⟩ := nd_loop_err hall hcd ⟨h, hh, fun dv₀ hdv₀ => by
          rw [hdv] at hdv₀
          injection hdv₀ with hinj
          subst hinj
          have hco : cands_of S h = l := by simp [cands_of, hg]
          rw [hco]
          exact hnin⟩
        refine ⟨e, ?_⟩
        simp only [one_value_grid_search, grid_mapM_eq hsub, exceptOkBind,
          if_pos hlistall, he, exceptErrorBind]

/-- Witness for C4 at `sMix` (`b` is not list-valued), `interests = ['b']`:
the grid search fails. -/
theorem claim_C4_witness :
    ∃ e, one_value_grid_search sMix ["b"] = .error e :=
  (claim_C4_grid_error_iff sMix ["b"] [("a", (1 : Int)), ("b", 7)] rfl
      (by intro h hh; fin_cases hh; rfl)).mpr
    (Or.inl ⟨"b", by decide, Gen.fixed 7, rfl, rfl⟩)

end HyperparameterSearcher

namespace HyperparameterSearcher

universe wa

variable {α : Type wa} [DecidableEq α]

/-!
## The frame claim (C10): no sampling call mutates the stored generator
map, the defaults map, or any pre-existing candidate-list object
-/

theorem nd_loop_R_preserves {S : SearcherR α} :
    ∀ (ints : List String) (heap : Heap α),
    heap.length ≤ (nd_loop_R S ints heap).2.length ∧
    ∀ i, i < heap.length → (nd_loop_R S ints heap).2[i]? = heap[i]? := by
  intro ints
  induction ints with
  | nil => intro heap; exact ⟨le_refl _, fun i _ => rfl⟩
  | cons h rest ih =>
    intro heap
    simp only [nd_loop_R]
    cases hg : alookup h S.hyperparams with
    | none => exact ⟨le_refl _, fun i _ => rfl⟩
    | some g =>
      dsimp only
      have hpres1 : ∀ i, i < heap.length →
          (heap ++ [(derefGen heap g).listVal])[i]? = heap[i]? :=
        fun i hi => List.getElem?_append_left hi
      cases hcd : choose_default
          (derefSearcher (heap ++ [(derefGen heap g).listVal]) S) h with
      | error e =>
        exact ⟨by simp, hpres1⟩
      | ok dv =>
        dsimp only
        cases hpi : pyIndex dv (derefGen heap g).listVal with
        | none => exact ⟨by simp, hpres1⟩
        | some i =>
          dsimp only
          have hpres2 : ∀ j, j < heap.length →
              ((heap ++ [(derefGen heap g).listVal]).set heap.length
                ((derefGen heap g).listVal.eraseIdx i))[j]? = heap[j]? := by
            intro j hj
            rw [List.getElem?_set_ne (by omega), hpres1 j hj]
          have hlen2 : ((heap ++ [(derefGen heap g).listVal]).set heap.length
              ((derefGen heap g).listVal.eraseIdx i)).length = heap.length + 1 := by
            simp
          obtain ⟨ihlen, ihpres⟩ := ih ((heap ++ [(derefGen heap g).listVal]).set
            heap.length ((derefGen heap g).listVal.eraseIdx i))
          cases hrec : nd_loop_R S rest ((heap ++ [(derefGen heap g).listVal]).set
              heap.length ((derefGen heap g).listVal.eraseIdx i)) with
          | mk r heapN =>
            rw [hrec] at ihlen ihpres
            rw [hlen2] at ihlen
            have ihlenN : heap.length + 1 ≤ heapN.length := ihlen
            have ihpresN : ∀ j, j < heap.length →
                heapN[j]? = ((heap ++ [(derefGen heap g).listVal]).set heap.length
                  ((derefGen heap g).listVal.eraseIdx i))[j]? :=
              fun j hj => ihpres j (by rw [hlen2]; omega)
            cases r with
            | error e =>
              refine ⟨?_, fun j hj => ?_⟩
              · show heap.length ≤ heapN.length
                omega
              · show heapN[j]? = heap[j]?
                rw [ihpresN j hj, hpres2 j hj]
            | ok nd =>
              refine ⟨?_, fun j hj => ?_⟩
              · show heap.length ≤ heapN.length
                omega
              · show heapN[j]? = heap[j]?
                rw [ihpresN j hj, hpres2 j hj]

theorem grid_R_preserves {S : SearcherR α} (ints : List String) (heap : Heap α) :
    heap.length ≤ (one_value_grid_search_R S ints heap).2.length ∧
    ∀ i, i < heap.length → (one_value_grid_search_R S ints heap).2[i]? = heap[i]? := by
  simp only [one_value_grid_search_R]
  cases hm : ints.mapM (fun h =>
      match alookup h S.hyperparams with
      | none => Except.error (PyErr.keyError h)
      | some g => Except.ok g) with
  | error e => exact ⟨le_refl _, fun i _ => rfl⟩
  | ok gens =>
    simp only []
    by_cases hall : gens.all GenR.isList
    · rw [if_pos hall]
      obtain ⟨hlen, hpres⟩ := nd_loop_R_preserves (S := S) ints heap
      cases hnd : nd_loop_R S ints heap with
      | mk r heap' =>
        rw [hnd] at hlen hpres
        cases r with
        | error e => exact ⟨hlen, hpres⟩
        | ok nd =>
          simp only []
          cases hds : default_search (derefSearcher heap' S)
              ((gens.map (fun g => (derefGen heap g).listLen)).sum + 1
                - ints.length) with
          | error e => exact ⟨hlen, hpres⟩
          | ok res =>
            simp only []
            cases hfl : fill_loop (nd.map (fun p => (p.1, heap'.getD p.2 [])))
                ints res 1 with
            | error e => exact ⟨hlen, hpres⟩
            | ok p =>
              obtain ⟨res', i'⟩ := p
              simp only []
              split
              · exact ⟨hlen, hpres⟩
              · exact ⟨hlen, hpres⟩
    · rw [if_neg hall]
      exact ⟨le_refl _, fun i _ => rfl⟩

theorem execCall_preserves (np? : Option (Nat → List α → α)) (S : SearcherR α)
    (c : Call α) (st : Heap α × Nat) :
    st.1.length ≤ (execCall np? S c st).1.length ∧
    ∀ i, i < st.1.length → (execCall np? S c st).1[i]? = st.1[i]? := by
  obtain ⟨heap, seed⟩ := st
  cases c with
  | defaultDictC => exact ⟨le_refl _, fun i _ => rfl⟩
  | randomDictC =>
    simp only [execCall]
    cases random_dict np? (derefSearcher heap S) seed with
    | ok p => exact ⟨le_refl _, fun i _ => rfl⟩
    | error e => exact ⟨le_refl _, fun i _ => rfl⟩
  | defaultSearchC n => exact ⟨le_refl _, fun i _ => rfl⟩
  | randomSearchC n =>
    simp only [execCall]
    cases random_search np? (derefSearcher heap S) n seed with
    | ok p => exact ⟨le_refl _, fun i _ => rfl⟩
    | error e => exact ⟨le_refl _, fun i _ => rfl⟩
  | oneValueSearchC ints n =>
    simp only [execCall]
    cases one_value_search np? (derefSearcher heap S) ints n seed with
    | ok p => exact ⟨le_refl _, fun i _ => rfl⟩
    | error e => exact ⟨le_refl _, fun i _ => rfl⟩
  | oneValueGridSearchC ints => exact grid_R_preserves ints heap
  | customSearchC ovr n =>
    simp only [execCall]
    cases custom_search np? (derefSearcher heap S) ovr n seed with
    | ok p => exact ⟨le_refl _, fun i _ => rfl⟩
    | error e => exact ⟨le_refl _, fun i _ => rfl⟩

theorem runCalls_preserves (np? : Option (Nat → List α → α)) (S : SearcherR α) :
    ∀ (calls : List (Call α)) (st : Heap α × Nat),
    st.1.length ≤ (runCalls np? S calls st).1.length ∧
    ∀ i, i < st.1.length → (runCalls np? S calls st).1[i]? = st.1[i]? := by
  intro calls
  induction calls with
  | nil => intro st; exact ⟨le_refl _, fun i _ => rfl⟩
  | cons c rest ih =>
    intro st
    obtain ⟨hlen1, hpres1⟩ := execCall_preserves np? S c st
    obtain ⟨hlen2, hpres2⟩ := ih (execCall np? S c st)
    refine ⟨le_trans hlen1 hlen2, fun i hi => ?_⟩
    simp only [runCalls]
    rw [hpres2 i (by omega), hpres1 i hi]

/-- C10: no sampling call mutates the searcher's stored state: after any
sequence of calls to `default_dict`, `random_dict`, `default_search`,
`random_search`, `one_value_search`, `one_value_grid_search` or
`custom_search`, every pre-existing candidate-list object is unchanged
(`one_value_grid_search` pops the default only from a fresh copy it
allocates), and consequently the dereferenced generator map — candidate
list contents included — and the defaults map are unchanged. -/
theorem claim_C10_no_sampling_mutation (np? : Option (Nat → List α → α))
    (S : SearcherR α) (calls : List (Call α)) (heap : Heap α) (seed : Nat) :
    (∀ r, r < heap.length →
      (runCalls np? S calls (heap, seed)).1[r]? = heap[r]?) ∧
    ((∀ p ∈ S.hyperparams, ∀ ref, p.2 = GenR.candsR ref → ref < heap.length) →
      derefSearcher (runCalls np? S calls (heap, seed)).1 S =
        derefSearcher heap S) := by
  obtain ⟨hlen, hpres⟩ := runCalls_preserves np? S calls (heap, seed)
  refine ⟨hpres, fun hvalid => ?_⟩
  unfold derefSearcher
  refine congrArg (fun l => Searcher.mk l S.hyp_defaults) ?_
  refine List.map_congr_left (fun p hp => ?_)
  obtain ⟨name, g⟩ := p
  cases g with
  | candsR ref =>
    have href : ref < heap.length := hvalid (name, .candsR ref) hp ref rfl
    simp only [derefGen]
    rw [List.getD_eq_getElem?_getD, List.getD_eq_getElem?_getD, hpres ref href]
  | factoryR f => rfl
  | fixedR v => rfl

/-- Witness for C10: one grid search (which pops from its internal copy)
followed by a random dictionary leaves `sRef`'s candidate-list object and
its dereferenced generator map untouched. -/
theorem claim_C10_witness :
    derefSearcher (runCalls (some chMod) sRef
        [Call.oneValueGridSearchC ["a"], Call.randomDictC] (heap0, 0)).1 sRef =
      derefSearcher heap0 sRef :=
  (claim_C10_no_sampling_mutation (some chMod) sRef
      [Call.oneValueGridSearchC ["a"], Call.randomDictC] heap0 0).2
    (by
      intro p hp ref heq
      fin_cases hp
      · injection heq with h0
        rw [← h0]
        decide
      · exact GenR.noConfusion heq)

end HyperparameterSearcher
